import Mathlib

/-!
Verification development for the monkeylang interpreter core
(lexer/parser/AST/evaluator of a small scripting language).

The Go sources are shallowly embedded:
* `token` package (not present in the sources, only used by them) is
  modelled from the specification, section 3 "Tokens".
* `ast/ast.go` becomes the mutually inductive `Expression`/`Statement`/
  `BlockStatement` types plus the `String` pretty-printers.
  Nullable interface-typed fields (`ast.Expression` fields that the parser
  may leave unset) are `Option Expression`; slices that Go may leave as
  `nil` slices are `Option (List _)`.  `BlockStatement` is a `Statement`
  in Go but the parser only ever nests it below `if`/`fn` nodes, so it is
  modelled as a separate type.
* the evaluator (`Eval`, `evalStatements`, `nativeBooltoBooleanObject`)
  is embedded with `Option Object` as result: `none` models the Go
  evaluator returning the host language's `nil`.
* the `object` package's `Enviroment` (sic) is embedded with the outer
  pointer (`*Enviroment`, possibly `nil`) encoded by the two constructors
  `root`/`enclosed`, and the mutating `Set` modelled as returning the
  updated environment.
* the Pratt parser is embedded as a family of mutually recursive
  functions over an explicit parser state `PState`; recursion is made
  structural with a fuel argument.  Exhausting the fuel sets the
  `fuelOut` flag of the state, so "the run was a real run of the Go
  code" is expressed by `fuelOut = false` of the final state.
-/

/-- Modelled from the spec: the `token` package is not among the source
files (only its users are).  Token kinds follow spec section 3. -/
inductive TokenType where
  | ILLEGAL | EOF | IDENT | INT | STRING
  | ASSIGN | PLUS | MINUS | BANG | ASTERISK | SLASH
  | LT | GT | EQ | NOT_EQ
  | COMMA | SEMICOLON | COLON
  | LPAREN | RPAREN | LBRACE | RBRACE | LBRACKET | RBRACKET
  | FUNCTION | LET | TRUE | FALSE | IF | ELSE | RETURN
deriving DecidableEq, Repr

/-- Modelled from the spec: the underlying string of each `token.TokenType`
constant (a Go string type), as printed by `%s`; spec section 3 writes the
punctuation kinds with their literal (`ASSIGN(=)`, `EQ(==)`, ...). -/
def ttStr : TokenType → String
  | .ILLEGAL => "ILLEGAL"
  | .EOF => "EOF"
  | .IDENT => "IDENT"
  | .INT => "INT"
  | .STRING => "STRING"
  | .ASSIGN => "="
  | .PLUS => "+"
  | .MINUS => "-"
  | .BANG => "!"
  | .ASTERISK => "*"
  | .SLASH => "/"
  | .LT => "<"
  | .GT => ">"
  | .EQ => "=="
  | .NOT_EQ => "!="
  | .COMMA => ","
  | .SEMICOLON => ";"
  | .COLON => ":"
  | .LPAREN => "("
  | .RPAREN => ")"
  | .LBRACE => "\x7b"
  | .RBRACE => "\x7d"
  | .LBRACKET => "["
  | .RBRACKET => "]"
  | .FUNCTION => "FUNCTION"
  | .LET => "LET"
  | .TRUE => "TRUE"
  | .FALSE => "FALSE"
  | .IF => "IF"
  | .ELSE => "ELSE"
  | .RETURN => "RETURN"

/-- A token: `(kind, literal)` pair, `token.Token` of the repository. -/
structure Token where
  type : TokenType
  literal : String
deriving DecidableEq, Repr

/-- `ast.Identifier`. -/
structure Ident where
  token : Token
  value : String
deriving DecidableEq, Repr

mutual
/-- The expression nodes of `ast/ast.go`.  Fields of Go interface type
`ast.Expression` that may be `nil` are `Option Expression`; Go slices
that may be `nil` slices (as returned by `parseExpressionList` /
`parseFunctionParameters` on failure) are `Option (List _)`. -/
inductive Expression where
  | identifier (token : Token) (value : String)
  | integerLiteral (token : Token) (value : Int)
  | stringLiteral (token : Token) (value : String)
  | booleanLit (token : Token) (value : Bool)
  | prefixExpr (token : Token) (operator : String) (right : Option Expression)
  | infixExpr (token : Token) (operator : String) (left : Option Expression)
      (right : Option Expression)
  | ifExpr (token : Token) (condition : Option Expression)
      (consequence : BlockStatement) (alternative : Option BlockStatement)
  | functionLiteral (token : Token) (parameters : Option (List Ident))
      (body : BlockStatement)
  | callExpr (token : Token) (function : Option Expression)
      (arguments : Option (List (Option Expression)))
  | arrayLiteral (token : Token) (elements : Option (List (Option Expression)))
  | indexExpr (token : Token) (left : Option Expression) (index : Option Expression)
  | hashLiteral (token : Token) (pairs : List (Option Expression × Option Expression))

/-- The statement nodes of `ast/ast.go`.  `ReturnStatement` carries the
two fields `Value` and `ReturnValue` exactly as the source declares them. -/
inductive Statement where
  | letStmt (token : Token) (name : Ident) (value : Option Expression)
  | returnStmt (token : Token) (value : Option Expression)
      (returnValue : Option Expression)
  | exprStmt (token : Token) (expression : Option Expression)

/-- `ast.BlockStatement`. -/
inductive BlockStatement where
  | block (token : Token) (statements : List Statement)
end

/-- `ast.Program`: the root node, an ordered list of statements. -/
structure Program where
  statements : List Statement

/- ------------------------------------------------------------------ -/
/- Runtime values, environment, evaluator (src/main.go second part,    -/
/- src/unnamed/part_000)                                               -/
/- ------------------------------------------------------------------ -/

/-- Modelled from the spec: the `object` package's value variants (the
sources only contain that package's `Enviroment`); spec section 3
"Runtime values".  Only the variants the embedded evaluator and the
claims mention are included. -/
inductive Object where
  | integer (value : Int)
  | boolean (value : Bool)
  | null
  | returnValue (inner : Object)
  | error (message : String)
deriving DecidableEq, Repr

/-- The shared singleton `NULL = &object.Null{}` of the evaluator. -/
def NULL : Object := .null

/-- The shared singleton `TRUE`. -/
def TRUE : Object := .boolean true

/-- The shared singleton `FALSE`. -/
def FALSE : Object := .boolean false

/-- `nativeBooltoBooleanObject` of the evaluator. -/
def nativeBooltoBooleanObject (input : Bool) : Object :=
  if input then TRUE else FALSE

/-- An `ast.Node`: the evaluator's `Eval` dispatches on the dynamic type
of its argument, which is a program, a statement or an expression. -/
inductive Node where
  | prog (p : Program)
  | stmt (s : Statement)
  | expr (e : Expression)

/-- The expression arm of the evaluator's `Eval` type switch
(src/main.go lines 44-48): integer literals and booleans produce values,
every other expression falls through to `return nil` (`none` here). -/
def evalExpr : Expression → Option Object
  | .integerLiteral _ v => some (.integer v)
  | .booleanLit _ v => some (nativeBooltoBooleanObject v)
  | _ => none

/-- The statement arm of the evaluator's `Eval` type switch: an
`ExpressionStatement` evaluates its expression (`Eval(nil)` returns host
nil when the field is unset); let and return statements hit the default
`return nil`. -/
def evalStmt : Statement → Option Object
  | .exprStmt _ (some e) => evalExpr e
  | _ => none

/-- The loop body of `evalStatements`: `result = Eval(stmt)` for each
statement, starting from the zero value `nil` of `object.Object`. -/
def evalStatementsAux : Option Object → List Statement → Option Object
  | result, [] => result
  | _, st :: rest => evalStatementsAux (evalStmt st) rest

/-- `evalStatements` (src/main.go lines 54-62). -/
def evalStatements (stmts : List Statement) : Option Object :=
  evalStatementsAux none stmts

/-- `Eval` (src/main.go lines 35-52).  `none` models the Go function
returning the host language's `nil`. -/
def Eval : Node → Option Object
  | .prog p => evalStatements p.statements
  | .stmt s => evalStmt s
  | .expr e => evalExpr e

/-- Modelled from the spec: `Inspect` of the `object` package (not in the
sources), spec section 6 "Value inspect form"; only used to state what
the REPL prints. -/
def Object.inspect : Object → String
  | .integer v => toString v
  | .boolean b => if b then "true" else "false"
  | .null => "null"
  | .returnValue o => o.inspect
  | .error m => "ERROR: " ++ m

/-- The printing step of the REPL loop (src/repl/repl.go lines 42-46):
after evaluating, it writes the inspect form and a newline only when the
evaluation result is not host `nil`. -/
def replPrint : Option Object → String
  | none => ""
  | some o => o.inspect ++ "\n"

/-- `object.Enviroment` (sic, src/unnamed/part_000): a store plus an
`outer *Enviroment` that is either `nil` (`root`) or set (`enclosed`).
The Go map is modelled as an association list. -/
inductive Enviroment where
  | root (store : List (String × Object))
  | enclosed (store : List (String × Object)) (outer : Enviroment)
deriving DecidableEq

/-- Go map read `store[name]`: `none` models `ok = false`. -/
def storeGet : List (String × Object) → String → Option Object
  | [], _ => none
  | (k, v) :: rest, name => if k = name then some v else storeGet rest name

/-- Go map write `store[name] = value`. -/
def storeSet : List (String × Object) → String → Object → List (String × Object)
  | [], name, value => [(name, value)]
  | (k, v) :: rest, name, value =>
    if k = name then (k, value) :: rest else (k, v) :: storeSet rest name value

/-- `NewEnvironment`. -/
def NewEnvironment : Enviroment := .root []

/-- `NewEnclosedEnvironment`. -/
def NewEnclosedEnvironment (outer : Enviroment) : Enviroment := .enclosed [] outer

/-- `Enviroment.Get`: read the current store; on a miss, recurse into the
outer environment when there is one.  `none` models `found = false`. -/
def Enviroment.Get : Enviroment → String → Option Object
  | .root store, name => storeGet store name
  | .enclosed store outer, name =>
    match storeGet store name with
    | some v => some v
    | none => outer.Get name

/-- `Enviroment.Set`: writes into the current frame's store.  The Go
method mutates the receiver and returns the value; the embedding returns
the updated environment. -/
def Enviroment.Set : Enviroment → String → Object → Enviroment
  | .root store, name, value => .root (storeSet store name value)
  | .enclosed store outer, name, value => .enclosed (storeSet store name value) outer

/-- The store of the current (innermost) frame. -/
def Enviroment.storeOf : Enviroment → List (String × Object)
  | .root store => store
  | .enclosed store _ => store

/-- The chain of stores, innermost first. -/
def Enviroment.frames : Enviroment → List (List (String × Object))
  | .root store => [store]
  | .enclosed store outer => store :: outer.frames

/-- The stores of the strictly outer frames. -/
def Enviroment.outerFrames : Enviroment → List (List (String × Object))
  | .root _ => []
  | .enclosed _ outer => outer.frames

/- ------------------------------------------------------------------ -/
/- AST pretty-print (the String methods of ast/ast.go)                 -/
/- ------------------------------------------------------------------ -/

/-- `strings.Join(xs, ", ")`. -/
def joinComma (xs : List String) : String := String.intercalate ", " xs

mutual
/-- The `String` methods of the expression nodes of ast/ast.go.  Where Go
would dereference a `nil` child (and panic), the embedding prints the
empty string; no claim exercises those cases. -/
def exprString : Expression → String
  | .identifier _ v => v
  | .integerLiteral tok _ => tok.literal
  | .stringLiteral tok _ => tok.literal
  | .booleanLit tok _ => tok.literal
  | .prefixExpr _ op r => "(" ++ op ++ optExprString r ++ ")"
  | .infixExpr _ op l r =>
    "(" ++ optExprString l ++ " " ++ op ++ " " ++ optExprString r ++ ")"
  | .ifExpr _ c cons alt =>
    "if" ++ optExprString c ++ " " ++ blockString cons ++
      (match alt with
       | none => ""
       | some b => " else " ++ blockString b)
  | .functionLiteral tok params body =>
    tok.literal ++ "(" ++
      joinComma (match params with
                 | none => []
                 | some ps => ps.map (fun p => p.value)) ++
      ") " ++ blockString body
  | .callExpr _ fn args =>
    optExprString fn ++ "(" ++
      joinComma (match args with
                 | none => []
                 | some l => optExprStringList l) ++ ")"
  | .arrayLiteral _ elems =>
    "[" ++
      joinComma (match elems with
                 | none => []
                 | some l => optExprStringList l) ++ "]"
  | .indexExpr _ l i =>
    "(" ++ optExprString l ++ "[" ++ optExprString i ++ "])"
  | .hashLiteral _ pairs =>
    "\x7b" ++ joinComma (pairStringList pairs) ++ "\x7d"

/-- `String` of a possibly-`nil` expression field. -/
def optExprString : Option Expression → String
  | none => ""
  | some e => exprString e

/-- The strings of a list of expressions (arguments / elements). -/
def optExprStringList : List (Option Expression) → List String
  | [] => []
  | e :: rest => optExprString e :: optExprStringList rest

/-- The `key:value` strings of hash pairs. -/
def pairStringList : List (Option Expression × Option Expression) → List String
  | [] => []
  | (k, v) :: rest =>
    (optExprString k ++ ":" ++ optExprString v) :: pairStringList rest

/-- The `String` methods of the statement nodes of ast/ast.go.  Note that
`ReturnStatement.String` prints the `Value` field (ast.go lines 94-106),
not the `ReturnValue` field. -/
def stmtString : Statement → String
  | .letStmt tok name v =>
    tok.literal ++ " " ++ name.value ++ " = " ++
      (match v with
       | none => ""
       | some e => exprString e) ++ ";"
  | .returnStmt tok v _ =>
    tok.literal ++ " " ++
      (match v with
       | none => ""
       | some e => exprString e) ++ ";"
  | .exprStmt _ e =>
    match e with
    | none => ""
    | some e => exprString e

/-- Concatenation of statement strings (`Program.String`,
`BlockStatement.String`). -/
def stmtStringList : List Statement → String
  | [] => ""
  | st :: rest => stmtString st ++ stmtStringList rest

/-- `BlockStatement.String`. -/
def blockString : BlockStatement → String
  | .block _ stmts => stmtStringList stmts
end

/-- `Program.String`. -/
def programString (p : Program) : String := stmtStringList p.statements

/- ------------------------------------------------------------------ -/
/- The non-null-children invariant (claim about prefix/infix nodes)    -/
/- ------------------------------------------------------------------ -/

mutual
/-- `wfExpr e` holds when every `PrefixExpression` node inside `e` has a
non-null `Right` and every `InfixExpression` node inside `e` has
non-null `Left` and `Right`.  Other optional fields may be absent. -/
def wfExpr : Expression → Bool
  | .identifier _ _ => true
  | .integerLiteral _ _ => true
  | .stringLiteral _ _ => true
  | .booleanLit _ _ => true
  | .prefixExpr _ _ r => wfReq r
  | .infixExpr _ _ l r => wfReq l && wfReq r
  | .ifExpr _ c cons alt => wfOpt c && wfBlock cons && wfOptBlock alt
  | .functionLiteral _ _ body => wfBlock body
  | .callExpr _ fn args => wfOpt fn && wfOptList args
  | .arrayLiteral _ elems => wfOptList elems
  | .indexExpr _ l i => wfOpt l && wfOpt i
  | .hashLiteral _ pairs => wfPairs pairs

/-- The invariant for an optional child: it may be absent, but a present
child must satisfy the invariant. -/
def wfOpt : Option Expression → Bool
  | none => true
  | some e => wfExpr e

/-- The invariant for a required child (the operand fields of prefix and
infix nodes): it must be present and satisfy the invariant. -/
def wfReq : Option Expression → Bool
  | none => false
  | some e => wfExpr e

def wfList : List (Option Expression) → Bool
  | [] => true
  | e :: rest => wfOpt e && wfList rest

def wfOptList : Option (List (Option Expression)) → Bool
  | none => true
  | some l => wfList l

def wfPairs : List (Option Expression × Option Expression) → Bool
  | [] => true
  | (k, v) :: rest => wfOpt k && wfOpt v && wfPairs rest

def wfStmt : Statement → Bool
  | .letStmt _ _ v => wfOpt v
  | .returnStmt _ v rv => wfOpt v && wfOpt rv
  | .exprStmt _ e => wfOpt e

def wfStmts : List Statement → Bool
  | [] => true
  | st :: rest => wfStmt st && wfStmts rest

def wfBlock : BlockStatement → Bool
  | .block _ stmts => wfStmts stmts

def wfOptBlock : Option BlockStatement → Bool
  | none => true
  | some b => wfBlock b
end

/-- The invariant over a whole program. -/
def wfProgram (p : Program) : Bool := wfStmts p.statements

/- ------------------------------------------------------------------ -/
/- Parser state (src/unnamed/part_001, src/parser/parser.go)           -/
/- ------------------------------------------------------------------ -/

/-- The `Parser` struct: the remaining lexer output (`toks`; the Go lexer
returns `EOF` tokens forever once exhausted), the two tokens of
lookahead, and the accumulated error messages.  `fuelOut` is an artifact
of the embedding: it is set when the fuel of the fueled recursion runs
out, so a final state with `fuelOut = false` corresponds to an actual
terminating run of the Go parser. -/
structure PState where
  toks : List Token
  curToken : Token
  peekToken : Token
  errors : List String
  fuelOut : Bool
deriving DecidableEq, Repr

/-- The token the lexer produces after the input is exhausted. -/
def eofToken : Token := ⟨.EOF, ""⟩

/-- `nextToken`: shift `peek` into `cur` and pull a new `peek` from the
lexer. -/
def nextToken (s : PState) : PState :=
  match s.toks with
  | [] => { s with curToken := s.peekToken, peekToken := eofToken }
  | t :: rest => { s with curToken := s.peekToken, peekToken := t, toks := rest }

/-- `parser.New`: start with no errors and read two tokens. -/
def mkParser (toks : List Token) : PState :=
  nextToken (nextToken ⟨toks, eofToken, eofToken, [], false⟩)

/-- Append an error message (`p.errors = append(p.errors, msg)`). -/
def addError (msg : String) (s : PState) : PState :=
  { s with errors := s.errors ++ [msg] }

/-- Mark that the embedding ran out of fuel (no Go counterpart). -/
def fuelExhausted (s : PState) : PState := { s with fuelOut := true }

/-- `curTokenIs`. -/
def curTokenIs (t : TokenType) (s : PState) : Bool := s.curToken.type = t

/-- `peekTokenIs`. -/
def peekTokenIs (t : TokenType) (s : PState) : Bool := s.peekToken.type = t

/-- `peekError`: the error message recorded when `expectPeek` fails. -/
def peekError (t : TokenType) (s : PState) : PState :=
  addError ("expected next token to be " ++ ttStr t ++ ", got " ++
    ttStr s.peekToken.type ++ " instead") s

/-- `expectPeek` (part_001 lines 556-564; named `expectedPeek` in
src/parser/parser.go with the same body). -/
def expectPeek (t : TokenType) (s : PState) : Bool × PState :=
  if s.peekToken.type = t then (true, nextToken s) else (false, peekError t s)

/-- `noPrefixParseFnError`. -/
def noPrefixParseFnError (t : TokenType) (s : PState) : PState :=
  addError ("no prefix parse function for token \x27" ++ ttStr t ++ "\x27 found") s

/-- The precedence constants (iota block, part_001 lines 12-22).
`PREFIXOP` is named `PREFIX` in the source. -/
def LOWEST : Nat := 1

def EQUALS : Nat := 2

def LESSGREATER : Nat := 3

def SUM : Nat := 4

def PRODUCT : Nat := 5

def PREFIXOP : Nat := 6

def CALL : Nat := 7

def INDEX : Nat := 8

/-- The `precedences` map of src/unnamed/part_001 lines 24-35 (the copy
in src/parser/parser.go lacks the `LPAREN` and `LBRACKET` entries).
`none` models "key absent". -/
def precedences : TokenType → Option Nat
  | .EQ => some EQUALS
  | .NOT_EQ => some EQUALS
  | .LT => some LESSGREATER
  | .GT => some LESSGREATER
  | .PLUS => some SUM
  | .ASTERISK => some PRODUCT
  | .MINUS => some SUM
  | .SLASH => some PRODUCT
  | .LPAREN => some CALL
  | .LBRACKET => some INDEX
  | _ => none

/-- `peekPrecedence`: the table entry for the peek token, `LOWEST` when
absent. -/
def peekPrecedence (s : PState) : Nat := (precedences s.peekToken.type).getD LOWEST

/-- `curPrecedence`. -/
def curPrecedence (s : PState) : Nat := (precedences s.curToken.type).getD LOWEST

/- ------------------------------------------------------------------ -/
/- Leaf prefix handlers (no recursion)                                 -/
/- ------------------------------------------------------------------ -/

/-- `parseIdentifier`. -/
def parseIdentifier (s : PState) : Option Expression × PState :=
  (some (.identifier s.curToken s.curToken.literal), s)

/-- `parseStringLiteral`. -/
def parseStringLiteral (s : PState) : Option Expression × PState :=
  (some (.stringLiteral s.curToken s.curToken.literal), s)

/-- `parseBoolean`. -/
def parseBoolean (s : PState) : Option Expression × PState :=
  (some (.booleanLit s.curToken (curTokenIs .TRUE s)), s)

/-- Modelled Go standard library `strconv.ParseInt(lit, 0, 64)` for the
literals this parser can receive: the lexer (not among the sources)
produces digit-only literals, so the model accepts nonempty decimal
digit strings within the int64 range and rejects everything else
(base prefixes and signs never reach it). -/
def goParseInt (lit : String) : Option Int :=
  if lit.length ≠ 0 ∧ lit.toList.all (fun c => c.isDigit) then
    let n : Nat := lit.toList.foldl (fun a c => a * 10 + (c.toNat - 48)) 0
    if n ≤ 9223372036854775807 then some (Int.ofNat n) else none
  else none

/-- `parseIntegerLiteral`. -/
def parseIntegerLiteral (s : PState) : Option Expression × PState :=
  match goParseInt s.curToken.literal with
  | some v => (some (.integerLiteral s.curToken v), s)
  | none =>
    (none, addError ("could not parse \"" ++ s.curToken.literal ++ "\" as integer") s)

/- ------------------------------------------------------------------ -/
/- The recursive parser of src/unnamed/part_001                        -/
/- ------------------------------------------------------------------ -/

mutual
/-- `parseExpression` (part_001 lines 466-485).  The match on the current
token type inlines the `prefixParseFns` registration table of `New`;
the default arm is the `prefix == nil` branch. -/
def parseExpression : Nat → Nat → PState → Option Expression × PState
  | 0, _, s => (none, fuelExhausted s)
  | Nat.succ f, prec, s =>
    match s.curToken.type with
    | .IDENT =>
      let r := parseIdentifier s
      parseExpressionLoop f prec r.1 r.2
    | .INT =>
      let r := parseIntegerLiteral s
      parseExpressionLoop f prec r.1 r.2
    | .STRING =>
      let r := parseStringLiteral s
      parseExpressionLoop f prec r.1 r.2
    | .BANG =>
      let r := parsePrefixExpression f s
      parseExpressionLoop f prec r.1 r.2
    | .MINUS =>
      let r := parsePrefixExpression f s
      parseExpressionLoop f prec r.1 r.2
    | .TRUE =>
      let r := parseBoolean s
      parseExpressionLoop f prec r.1 r.2
    | .FALSE =>
      let r := parseBoolean s
      parseExpressionLoop f prec r.1 r.2
    | .LPAREN =>
      let r := parseGroupedExpression f s
      parseExpressionLoop f prec r.1 r.2
    | .IF =>
      let r := parseIfExpression f s
      parseExpressionLoop f prec r.1 r.2
    | .FUNCTION =>
      let r := parseFunctionLiteral f s
      parseExpressionLoop f prec r.1 r.2
    | .LBRACKET =>
      let r := parseArrayLiteral f s
      parseExpressionLoop f prec r.1 r.2
    | .LBRACE =>
      let r := parseHashLiteral f s
      parseExpressionLoop f prec r.1 r.2
    | t => (none, noPrefixParseFnError t s)

/-- The `for` loop of `parseExpression`: while the peek token is not a
semicolon and binds tighter than `prec`, look up an infix handler for it
(the `infixParseFns` table is inlined in the match; the default arm is
the `infix == nil` early return), advance, and fold the handler over the
left expression. -/
def parseExpressionLoop : Nat → Nat → Option Expression → PState → Option Expression × PState
  | 0, _, left, s => (left, fuelExhausted s)
  | Nat.succ f, prec, left, s =>
    if s.peekToken.type ≠ .SEMICOLON ∧ prec < peekPrecedence s then
      match s.peekToken.type with
      | .PLUS =>
        let r := parseInfixExpression f left (nextToken s)
        parseExpressionLoop f prec r.1 r.2
      | .MINUS =>
        let r := parseInfixExpression f left (nextToken s)
        parseExpressionLoop f prec r.1 r.2
      | .ASTERISK =>
        let r := parseInfixExpression f left (nextToken s)
        parseExpressionLoop f prec r.1 r.2
      | .SLASH =>
        let r := parseInfixExpression f left (nextToken s)
        parseExpressionLoop f prec r.1 r.2
      | .EQ =>
        let r := parseInfixExpression f left (nextToken s)
        parseExpressionLoop f prec r.1 r.2
      | .NOT_EQ =>
        let r := parseInfixExpression f left (nextToken s)
        parseExpressionLoop f prec r.1 r.2
      | .LT =>
        let r := parseInfixExpression f left (nextToken s)
        parseExpressionLoop f prec r.1 r.2
      | .GT =>
        let r := parseInfixExpression f left (nextToken s)
        parseExpressionLoop f prec r.1 r.2
      | .LPAREN =>
        let r := parseCallExpression f left (nextToken s)
        parseExpressionLoop f prec r.1 r.2
      | .LBRACKET =>
        let r := parseIndexExpression f left (nextToken s)
        parseExpressionLoop f prec r.1 r.2
      | _ => (left, s)
    else (left, s)

/-- `parsePrefixExpression` (part_001 lines 98-108): build the node from
the operator token, advance, and parse the operand at `PREFIX`
precedence; the operand may come back `nil`. -/
def parsePrefixExpression : Nat → PState → Option Expression × PState
  | 0, s => (none, fuelExhausted s)
  | Nat.succ f, s =>
    let tok := s.curToken
    let s1 := nextToken s
    let r := parseExpression f PREFIXOP s1
    (some (.prefixExpr tok tok.literal r.1), r.2)

/-- `parseInfixExpression` (part_001 lines 113-125): the operator token is
current; record `curPrecedence`, advance, and parse the right side. -/
def parseInfixExpression : Nat → Option Expression → PState → Option Expression × PState
  | 0, _, s => (none, fuelExhausted s)
  | Nat.succ f, left, s =>
    let tok := s.curToken
    let precedence := curPrecedence s
    let s1 := nextToken s
    let r := parseExpression f precedence s1
    (some (.infixExpr tok tok.literal left r.1), r.2)

/-- `parseGroupedExpression` (part_001 lines 138-145). -/
def parseGroupedExpression : Nat → PState → Option Expression × PState
  | 0, s => (none, fuelExhausted s)
  | Nat.succ f, s =>
    let s1 := nextToken s
    let r := parseExpression f LOWEST s1
    match expectPeek .RPAREN r.2 with
    | (false, s2) => (none, s2)
    | (true, s2) => (r.1, s2)

/-- `parseIfExpression` (part_001 lines 151-189). -/
def parseIfExpression : Nat → PState → Option Expression × PState
  | 0, s => (none, fuelExhausted s)
  | Nat.succ f, s =>
    let tok := s.curToken
    match expectPeek .LPAREN s with
    | (false, s1) => (none, s1)
    | (true, s1) =>
      let s2 := nextToken s1
      let rc := parseExpression f LOWEST s2
      match expectPeek .RPAREN rc.2 with
      | (false, s3) => (none, s3)
      | (true, s3) =>
        match expectPeek .LBRACE s3 with
        | (false, s4) => (none, s4)
        | (true, s4) =>
          let rb := parseBlockStatement f s4
          if rb.2.peekToken.type = .ELSE then
            let s5 := nextToken rb.2
            match expectPeek .LBRACE s5 with
            | (false, s6) => (none, s6)
            | (true, s6) =>
              let ra := parseBlockStatement f s6
              (some (.ifExpr tok rc.1 rb.1 (some ra.1)), ra.2)
          else
            (some (.ifExpr tok rc.1 rb.1 none), rb.2)

/-- `parseBlockStatement` (part_001 lines 194-208), embedded exactly as
written: after advancing past `{` the body is an `if`, not a loop, so at
most one statement is parsed. -/
def parseBlockStatement : Nat → PState → BlockStatement × PState
  | 0, s => (.block s.curToken [], fuelExhausted s)
  | Nat.succ f, s =>
    let tok := s.curToken
    let s1 := nextToken s
    if ¬ (curTokenIs .RBRACE s1 = true) ∧ ¬ (curTokenIs .EOF s1 = true) then
      let r := parseStatement f s1
      let stmts := match r.1 with
                   | some st => [st]
                   | none => []
      (.block tok stmts, nextToken r.2)
    else
      (.block tok [], s1)

/-- `parseFunctionLiteral` (part_001 lines 216-232). -/
def parseFunctionLiteral : Nat → PState → Option Expression × PState
  | 0, s => (none, fuelExhausted s)
  | Nat.succ f, s =>
    let tok := s.curToken
    match expectPeek .LPAREN s with
    | (false, s1) => (none, s1)
    | (true, s1) =>
      let rp := parseFunctionParameters f s1
      match expectPeek .LBRACE rp.2 with
      | (false, s2) => (none, s2)
      | (true, s2) =>
        let rb := parseBlockStatement f s2
        (some (.functionLiteral tok rp.1 rb.1), rb.2)

/-- `parseFunctionParameters` (part_001 lines 315-343).  `none` models the
`nil` slice returned when the closing parenthesis is missing. -/
def parseFunctionParameters : Nat → PState → Option (List Ident) × PState
  | 0, s => (none, fuelExhausted s)
  | Nat.succ f, s =>
    if s.peekToken.type = .RPAREN then
      (some [], nextToken s)
    else
      let s1 := nextToken s
      let first : Ident := ⟨s1.curToken, s1.curToken.literal⟩
      let r := parseFunctionParametersLoop f [first] s1
      match expectPeek .RPAREN r.2 with
      | (false, s2) => (none, s2)
      | (true, s2) => (some r.1, s2)

/-- The `for p.peekTokenIs(token.COMMA)` loop of
`parseFunctionParameters`. -/
def parseFunctionParametersLoop : Nat → List Ident → PState → List Ident × PState
  | 0, acc, s => (acc, fuelExhausted s)
  | Nat.succ f, acc, s =>
    if s.peekToken.type = .COMMA then
      let s1 := nextToken (nextToken s)
      let id : Ident := ⟨s1.curToken, s1.curToken.literal⟩
      parseFunctionParametersLoop f (acc ++ [id]) s1
    else
      (acc, s)

/-- `parseArrayLiteral` (part_001 lines 240-245). -/
def parseArrayLiteral : Nat → PState → Option Expression × PState
  | 0, s => (none, fuelExhausted s)
  | Nat.succ f, s =>
    let tok := s.curToken
    let r := parseExpressionList f .RBRACKET s
    (some (.arrayLiteral tok r.1), r.2)

/-- `parseHashLiteral` (part_001 lines 253-280): the loop body, then the
final `expectPeek(RBRACE)`. -/
def parseHashLiteral : Nat → PState → Option Expression × PState
  | 0, s => (none, fuelExhausted s)
  | Nat.succ f, s =>
    let tok := s.curToken
    let r := parseHashPairsLoop f [] s
    match r.1 with
    | none => (none, r.2)
    | some pairs =>
      match expectPeek .RBRACE r.2 with
      | (false, s1) => (none, s1)
      | (true, s1) => (some (.hashLiteral tok pairs), s1)

/-- The `for !p.peekTokenIs(token.RBRACE)` loop of `parseHashLiteral`:
parse `key : value`, then — short-circuiting exactly as the Go condition
`!p.peekTokenIs(RBRACE) && !p.expectPeek(COMMA)` does — either continue
or return `nil`. -/
def parseHashPairsLoop : Nat → List (Option Expression × Option Expression) → PState →
    Option (List (Option Expression × Option Expression)) × PState
  | 0, _, s => (none, fuelExhausted s)
  | Nat.succ f, acc, s =>
    if s.peekToken.type ≠ .RBRACE then
      let s1 := nextToken s
      let rk := parseExpression f LOWEST s1
      match expectPeek .COLON rk.2 with
      | (false, s2) => (none, s2)
      | (true, s2) =>
        let s3 := nextToken s2
        let rv := parseExpression f LOWEST s3
        let acc1 := acc ++ [(rk.1, rv.1)]
        if rv.2.peekToken.type ≠ .RBRACE then
          match expectPeek .COMMA rv.2 with
          | (false, s4) => (none, s4)
          | (true, s4) => parseHashPairsLoop f acc1 s4
        else
          parseHashPairsLoop f acc1 rv.2
    else
      (some acc, s)

/-- `parseExpressionList` (part_001 lines 286-308).  `none` models the
`nil` slice returned when the end token is missing. -/
def parseExpressionList : Nat → TokenType → PState → Option (List (Option Expression)) × PState
  | 0, _, s => (none, fuelExhausted s)
  | Nat.succ f, endT, s =>
    if s.peekToken.type = endT then
      (some [], nextToken s)
    else
      let s1 := nextToken s
      let r0 := parseExpression f LOWEST s1
      let r := parseExpressionListLoop f [r0.1] r0.2
      match expectPeek endT r.2 with
      | (false, s2) => (none, s2)
      | (true, s2) => (some r.1, s2)

/-- The `for p.peekTokenIs(token.COMMA)` loop of `parseExpressionList`. -/
def parseExpressionListLoop : Nat → List (Option Expression) → PState →
    List (Option Expression) × PState
  | 0, acc, s => (acc, fuelExhausted s)
  | Nat.succ f, acc, s =>
    if s.peekToken.type = .COMMA then
      let s1 := nextToken (nextToken s)
      let r := parseExpression f LOWEST s1
      parseExpressionListLoop f (acc ++ [r.1]) r.2
    else
      (acc, s)

/-- `parseCallExpression` (part_001 lines 347-351). -/
def parseCallExpression : Nat → Option Expression → PState → Option Expression × PState
  | 0, _, s => (none, fuelExhausted s)
  | Nat.succ f, function, s =>
    let tok := s.curToken
    let r := parseExpressionList f .RPAREN s
    (some (.callExpr tok function r.1), r.2)

/-- `parseIndexExpression` (part_001 lines 357-366). -/
def parseIndexExpression : Nat → Option Expression → PState → Option Expression × PState
  | 0, _, s => (none, fuelExhausted s)
  | Nat.succ f, left, s =>
    let tok := s.curToken
    let s1 := nextToken s
    let r := parseExpression f LOWEST s1
    match expectPeek .RBRACKET r.2 with
    | (false, s2) => (none, s2)
    | (true, s2) => (some (.indexExpr tok left r.1), s2)

/-- `parseStatement` (part_001 lines 449-459). -/
def parseStatement : Nat → PState → Option Statement × PState
  | 0, s => (none, fuelExhausted s)
  | Nat.succ f, s =>
    match s.curToken.type with
    | .LET => parseLetStatement f s
    | .RETURN => parseReturnStatement f s
    | _ => parseExpressionStatement f s

/-- `parseLetStatement` (part_001 lines 489-511; the src/parser/parser.go
variant differs and is embedded separately below). -/
def parseLetStatement : Nat → PState → Option Statement × PState
  | 0, s => (none, fuelExhausted s)
  | Nat.succ f, s =>
    let tok := s.curToken
    match expectPeek .IDENT s with
    | (false, s1) => (none, s1)
    | (true, s1) =>
      let name : Ident := ⟨s1.curToken, s1.curToken.literal⟩
      match expectPeek .ASSIGN s1 with
      | (false, s2) => (none, s2)
      | (true, s2) =>
        let s3 := nextToken s2
        let r := parseExpression f LOWEST s3
        let s4 := skipPeekSemicolons f r.2
        (some (.letStmt tok name r.1), s4)

/-- The `for p.peekTokenIs(token.SEMICOLON)` loop at the end of
part_001's `parseLetStatement`. -/
def skipPeekSemicolons : Nat → PState → PState
  | 0, s => fuelExhausted s
  | Nat.succ f, s =>
    if s.peekToken.type = .SEMICOLON then skipPeekSemicolons f (nextToken s) else s

/-- `parseReturnStatement` (part_001 lines 516-528): only the
`ReturnValue` field of the node is populated; `Value` stays `nil`. -/
def parseReturnStatement : Nat → PState → Option Statement × PState
  | 0, s => (none, fuelExhausted s)
  | Nat.succ f, s =>
    let tok := s.curToken
    let s1 := nextToken s
    let r := parseExpression f LOWEST s1
    let s2 := if r.2.peekToken.type = .SEMICOLON then nextToken r.2 else r.2
    (some (.returnStmt tok none r.1), s2)

/-- `parseExpressionStatement` (part_001 lines 530-541). -/
def parseExpressionStatement : Nat → PState → Option Statement × PState
  | 0, s => (none, fuelExhausted s)
  | Nat.succ f, s =>
    let tok := s.curToken
    let r := parseExpression f LOWEST s
    let s1 := if r.2.peekToken.type = .SEMICOLON then nextToken r.2 else r.2
    (some (.exprStmt tok r.1), s1)

/-- The `for p.curToken.Type != token.EOF` loop of `ParseProgram`. -/
def parseProgramLoop : Nat → List Statement → PState → List Statement × PState
  | 0, acc, s => (acc, fuelExhausted s)
  | Nat.succ f, acc, s =>
    if s.curToken.type ≠ .EOF then
      let r := parseStatement f s
      let acc1 := match r.1 with
                  | some st => acc ++ [st]
                  | none => acc
      parseProgramLoop f acc1 (nextToken r.2)
    else
      (acc, s)
end

/-- `ParseProgram` (part_001 lines 431-446). -/
def ParseProgram (fuel : Nat) (s : PState) : Program × PState :=
  let r := parseProgramLoop fuel [] s
  (⟨r.1⟩, r.2)

/- ------------------------------------------------------------------ -/
/- The src/parser/parser.go variant of parseLetStatement               -/
/- ------------------------------------------------------------------ -/

/-- The `for !p.curTokenIs(token.SEMICOLON) { p.nextToken() }` loop of
src/parser/parser.go's `parseLetStatement` (lines 242-244; its
`parseReturnStatement` lines 257-259 contains the same loop).  `none`
models "the loop is still running after `fuel` iterations": the Go loop
terminates on an input exactly when some fuel makes this return `some`. -/
def curSkipToSemicolonV0 : Nat → PState → Option PState
  | 0, _ => none
  | Nat.succ f, s =>
    if s.curToken.type = .SEMICOLON then some s else curSkipToSemicolonV0 f (nextToken s)

/-- `parseLetStatement` of src/parser/parser.go (lines 229-247): expect
`IDENT`, expect `ASSIGN`, then skip tokens until a semicolon is current
(neither the `Value` field nor any expression is parsed).  The outer
`none` models a run that never finishes. -/
def parseLetStatementV0 (fuel : Nat) (s : PState) : Option (Option Statement × PState) :=
  let tok := s.curToken
  match expectPeek .IDENT s with
  | (false, s1) => some (none, s1)
  | (true, s1) =>
    let name : Ident := ⟨s1.curToken, s1.curToken.literal⟩
    match expectPeek .ASSIGN s1 with
    | (false, s2) => some (none, s2)
    | (true, s2) =>
      match curSkipToSemicolonV0 fuel s2 with
      | none => none
      | some s3 => some (some (.letStmt tok name none), s3)

/-- No semicolon anywhere in the unread part of the parser state (current
token, peek token, remaining lexer output). -/
def noSemicolonAhead (s : PState) : Bool :=
  decide (s.curToken.type ≠ .SEMICOLON) &&
  decide (s.peekToken.type ≠ .SEMICOLON) &&
  s.toks.all (fun t => decide (t.type ≠ .SEMICOLON))

/- ------------------------------------------------------------------ -/
/- Projections used to state concrete parsing facts                    -/
/- ------------------------------------------------------------------ -/

/-- The first statement of a program, when there is one. -/
def firstStmt (p : Program) : Option Statement := p.statements.head?

/-- When the program starts with an expression statement holding an `if`
expression, the number of statements of its consequence block. -/
def consequenceLength (p : Program) : Option Nat :=
  match p.statements with
  | .exprStmt _ (some (.ifExpr _ _ (.block _ sts) _)) :: _ => some sts.length
  | _ => none

/-- When the program starts with an expression statement holding an `if`
expression whose consequence is a single integer-literal statement, that
integer. -/
def consequenceSingleInt (p : Program) : Option Int :=
  match p.statements with
  | .exprStmt _ (some (.ifExpr _ _
      (.block _ [.exprStmt _ (some (.integerLiteral _ n))]) _)) :: _ => some n
  | _ => none

/-- Whether a statement is a `ReturnStatement` whose `Value` field (the
one `String` prints) is `nil`. -/
def rsValueIsNil : Statement → Bool
  | .returnStmt _ v _ => v.isNone
  | _ => false

/-- The integer literal held by a `ReturnStatement`'s `ReturnValue` field
(the one the parser populates), when it has that shape. -/
def rsReturnValueInt : Statement → Option Int
  | .returnStmt _ _ (some (.integerLiteral _ n)) => some n
  | _ => none

/- ------------------------------------------------------------------ -/
/- Concrete token lists (lexer output for the inputs named in claims)  -/
/- ------------------------------------------------------------------ -/

/-- Lexer output for the input `let x = 5` (no trailing semicolon). -/
def letNoSemiToks : List Token :=
  [⟨.LET, "let"⟩, ⟨.IDENT, "x"⟩, ⟨.ASSIGN, "="⟩, ⟨.INT, "5"⟩]

/-- Lexer output for the input `if (true) \x7b 1 2 \x7d`: a block written
with the two statements `1` and `2`. -/
def ifTwoStmtToks : List Token :=
  [⟨.IF, "if"⟩, ⟨.LPAREN, "("⟩, ⟨.TRUE, "true"⟩, ⟨.RPAREN, ")"⟩,
   ⟨.LBRACE, "\x7b"⟩, ⟨.INT, "1"⟩, ⟨.INT, "2"⟩, ⟨.RBRACE, "\x7d"⟩]

/-- Lexer output for the input `return 5;`. -/
def returnFiveToks : List Token :=
  [⟨.RETURN, "return"⟩, ⟨.INT, "5"⟩, ⟨.SEMICOLON, ";"⟩]

/-- Lexer output for the input `!` (a bang with no operand). -/
def bangToks : List Token := [⟨.BANG, "!"⟩]

/-- Lexer output for the well-formed input `!5 + 3`. -/
def bangAddToks : List Token :=
  [⟨.BANG, "!"⟩, ⟨.INT, "5"⟩, ⟨.PLUS, "+"⟩, ⟨.INT, "3"⟩]

/- ------------------------------------------------------------------ -/
/- Bookkeeping relations for the parser proofs                         -/
/- ------------------------------------------------------------------ -/

/-- Every parser step only ever appends error messages and only ever sets
(never clears) the fuel flag. -/
def StepOk (s s' : PState) : Prop :=
  (∃ d, s'.errors = s.errors ++ d) ∧ (s'.fuelOut = false → s.fuelOut = false)

/-- A run from `s` to `s'` is clean when it recorded no error message and
did not exhaust the embedding's fuel. -/
def Clean (s s' : PState) : Prop :=
  s'.errors = s.errors ∧ s'.fuelOut = false

/-- Whether a program's first statement is an expression statement whose
expression is a `PrefixExpression` with a `nil` `Right` operand. -/
def firstPrefixRightIsNil (p : Program) : Bool :=
  match p.statements with
  | .exprStmt _ (some (.prefixExpr _ _ none)) :: _ => true
  | _ => false

/- Per-function correctness bundles for the parser: every function only
appends errors and only sets the fuel flag (`StepOk`), and a clean run
(no new error, fuel not exhausted) produces present, well-formed
results. -/

def ExprP (f : Nat) : Prop :=
  ∀ prec s, StepOk s (parseExpression f prec s).2 ∧
    (Clean s (parseExpression f prec s).2 →
      ∃ e, (parseExpression f prec s).1 = some e ∧ wfExpr e = true)

def LoopP (f : Nat) : Prop :=
  ∀ prec left s, StepOk s (parseExpressionLoop f prec left s).2 ∧
    (Clean s (parseExpressionLoop f prec left s).2 → wfReq left = true →
      ∃ e, (parseExpressionLoop f prec left s).1 = some e ∧ wfExpr e = true)

def PreExP (f : Nat) : Prop :=
  ∀ s, StepOk s (parsePrefixExpression f s).2 ∧
    (Clean s (parsePrefixExpression f s).2 →
      ∃ e, (parsePrefixExpression f s).1 = some e ∧ wfExpr e = true)

def InExP (f : Nat) : Prop :=
  ∀ left s, StepOk s (parseInfixExpression f left s).2 ∧
    (Clean s (parseInfixExpression f left s).2 → wfReq left = true →
      ∃ e, (parseInfixExpression f left s).1 = some e ∧ wfExpr e = true)

def GroupP (f : Nat) : Prop :=
  ∀ s, StepOk s (parseGroupedExpression f s).2 ∧
    (Clean s (parseGroupedExpression f s).2 →
      ∃ e, (parseGroupedExpression f s).1 = some e ∧ wfExpr e = true)

def IfP (f : Nat) : Prop :=
  ∀ s, StepOk s (parseIfExpression f s).2 ∧
    (Clean s (parseIfExpression f s).2 →
      ∃ e, (parseIfExpression f s).1 = some e ∧ wfExpr e = true)

def BlockP (f : Nat) : Prop :=
  ∀ s, StepOk s (parseBlockStatement f s).2 ∧
    (Clean s (parseBlockStatement f s).2 →
      wfBlock (parseBlockStatement f s).1 = true)

def FnLitP (f : Nat) : Prop :=
  ∀ s, StepOk s (parseFunctionLiteral f s).2 ∧
    (Clean s (parseFunctionLiteral f s).2 →
      ∃ e, (parseFunctionLiteral f s).1 = some e ∧ wfExpr e = true)

def FnParamsP (f : Nat) : Prop :=
  ∀ s, StepOk s (parseFunctionParameters f s).2

def FnParamsLoopP (f : Nat) : Prop :=
  ∀ acc s, StepOk s (parseFunctionParametersLoop f acc s).2

def ArrayP (f : Nat) : Prop :=
  ∀ s, StepOk s (parseArrayLiteral f s).2 ∧
    (Clean s (parseArrayLiteral f s).2 →
      ∃ e, (parseArrayLiteral f s).1 = some e ∧ wfExpr e = true)

def HashP (f : Nat) : Prop :=
  ∀ s, StepOk s (parseHashLiteral f s).2 ∧
    (Clean s (parseHashLiteral f s).2 →
      ∃ e, (parseHashLiteral f s).1 = some e ∧ wfExpr e = true)

def HashLoopP (f : Nat) : Prop :=
  ∀ acc s, StepOk s (parseHashPairsLoop f acc s).2 ∧
    (Clean s (parseHashPairsLoop f acc s).2 → wfPairs acc = true →
      ∃ ps, (parseHashPairsLoop f acc s).1 = some ps ∧ wfPairs ps = true)

def EListP (f : Nat) : Prop :=
  ∀ endT s, StepOk s (parseExpressionList f endT s).2 ∧
    (Clean s (parseExpressionList f endT s).2 →
      ∃ l, (parseExpressionList f endT s).1 = some l ∧ wfList l = true)

def EListLoopP (f : Nat) : Prop :=
  ∀ acc s, StepOk s (parseExpressionListLoop f acc s).2 ∧
    (Clean s (parseExpressionListLoop f acc s).2 → wfList acc = true →
      wfList (parseExpressionListLoop f acc s).1 = true)

def CallP (f : Nat) : Prop :=
  ∀ left s, StepOk s (parseCallExpression f left s).2 ∧
    (Clean s (parseCallExpression f left s).2 → wfReq left = true →
      ∃ e, (parseCallExpression f left s).1 = some e ∧ wfExpr e = true)

def IndexP (f : Nat) : Prop :=
  ∀ left s, StepOk s (parseIndexExpression f left s).2 ∧
    (Clean s (parseIndexExpression f left s).2 → wfReq left = true →
      ∃ e, (parseIndexExpression f left s).1 = some e ∧ wfExpr e = true)

def StmtP (f : Nat) : Prop :=
  ∀ s, StepOk s (parseStatement f s).2 ∧
    (Clean s (parseStatement f s).2 →
      ∃ st, (parseStatement f s).1 = some st ∧ wfStmt st = true)

def LetP (f : Nat) : Prop :=
  ∀ s, StepOk s (parseLetStatement f s).2 ∧
    (Clean s (parseLetStatement f s).2 →
      ∃ st, (parseLetStatement f s).1 = some st ∧ wfStmt st = true)

def SkipSemiP (f : Nat) : Prop :=
  ∀ s, StepOk s (skipPeekSemicolons f s)

def RetP (f : Nat) : Prop :=
  ∀ s, StepOk s (parseReturnStatement f s).2 ∧
    (Clean s (parseReturnStatement f s).2 →
      ∃ st, (parseReturnStatement f s).1 = some st ∧ wfStmt st = true)

def ExprStmtP (f : Nat) : Prop :=
  ∀ s, StepOk s (parseExpressionStatement f s).2 ∧
    (Clean s (parseExpressionStatement f s).2 →
      ∃ st, (parseExpressionStatement f s).1 = some st ∧ wfStmt st = true)

def ProgLoopP (f : Nat) : Prop :=
  ∀ acc s, StepOk s (parseProgramLoop f acc s).2 ∧
    (Clean s (parseProgramLoop f acc s).2 → wfStmts acc = true →
      wfStmts (parseProgramLoop f acc s).1 = true)

/-- All of the above, at one fuel value. -/
def ParserOk (f : Nat) : Prop :=
  ExprP f ∧ LoopP f ∧ PreExP f ∧ InExP f ∧ GroupP f ∧ IfP f ∧ BlockP f ∧
  FnLitP f ∧ FnParamsP f ∧ FnParamsLoopP f ∧ ArrayP f ∧ HashP f ∧ HashLoopP f ∧
  EListP f ∧ EListLoopP f ∧ CallP f ∧ IndexP f ∧ StmtP f ∧ LetP f ∧
  SkipSemiP f ∧ RetP f ∧ ExprStmtP f ∧ ProgLoopP f

/- ------------------------------------------------------------------ -/
/- Helper lemmas                                                       -/
/- ------------------------------------------------------------------ -/

theorem list_append_ne_self {α : Type} (l d : List α) (h : d ≠ []) : l ++ d ≠ l := by
  intro he
  have hl := congrArg List.length he
  simp [List.length_append] at hl
  exact h hl

theorem stepOk_refl (s : PState) : StepOk s s :=
  ⟨⟨[], by simp⟩, fun h => h⟩

theorem stepOk_trans {s₁ s₂ s₃ : PState} (h₁ : StepOk s₁ s₂) (h₂ : StepOk s₂ s₃) :
    StepOk s₁ s₃ := by
  obtain ⟨⟨d₁, e₁⟩, f₁⟩ := h₁
  obtain ⟨⟨d₂, e₂⟩, f₂⟩ := h₂
  exact ⟨⟨d₁ ++ d₂, by rw [e₂, e₁, List.append_assoc]⟩, fun h => f₁ (f₂ h)⟩

theorem clean_split {s s₁ s₂ : PState} (h₁ : StepOk s s₁) (h₂ : StepOk s₁ s₂)
    (hc : Clean s s₂) : Clean s s₁ ∧ Clean s₁ s₂ := by
  obtain ⟨⟨d₁, e₁⟩, f₁⟩ := h₁
  obtain ⟨⟨d₂, e₂⟩, f₂⟩ := h₂
  have h0 : s.errors ++ (d₁ ++ d₂) = s.errors := by
    rw [← List.append_assoc, ← e₁, ← e₂, hc.1]
  have hlen := congrArg List.length h0
  simp [List.length_append] at hlen
  obtain ⟨hd₁, hd₂⟩ := hlen
  have hfo₁ : s₁.fuelOut = false := f₂ hc.2
  constructor
  · exact ⟨by rw [e₁, hd₁, List.append_nil], hfo₁⟩
  · exact ⟨by rw [e₂, hd₂, List.append_nil], hc.2⟩

theorem nextToken_errors (s : PState) : (nextToken s).errors = s.errors := by
  unfold nextToken
  cases s.toks <;> rfl

theorem nextToken_fuelOut (s : PState) : (nextToken s).fuelOut = s.fuelOut := by
  unfold nextToken
  cases s.toks <;> rfl

theorem stepOk_nextToken (s : PState) : StepOk s (nextToken s) :=
  ⟨⟨[], by rw [nextToken_errors, List.append_nil]⟩,
   fun h => by rw [← nextToken_fuelOut s]; exact h⟩

theorem stepOk_addError (m : String) (s : PState) : StepOk s (addError m s) :=
  ⟨⟨[m], rfl⟩, fun h => h⟩

theorem stepOk_fuelExhausted (s : PState) : StepOk s (fuelExhausted s) :=
  ⟨⟨[], by simp [fuelExhausted]⟩, fun h => by simp [fuelExhausted] at h⟩

theorem not_clean_fuelExhausted {s₀ : PState} (s : PState) : ¬ Clean s₀ (fuelExhausted s) := by
  intro h
  exact Bool.noConfusion (show true = false from h.2)

theorem peekError_errors (t : TokenType) (s : PState) :
    (peekError t s).errors = s.errors ++ ["expected next token to be " ++ ttStr t ++
      ", got " ++ ttStr s.peekToken.type ++ " instead"] := rfl

theorem peekError_fuelOut (t : TokenType) (s : PState) :
    (peekError t s).fuelOut = s.fuelOut := rfl

theorem stepOk_peekError (t : TokenType) (s : PState) : StepOk s (peekError t s) :=
  stepOk_addError _ s

theorem not_clean_addError {s₀ : PState} (m : String) (s : PState) (h : StepOk s₀ s) :
    ¬ Clean s₀ (addError m s) := by
  intro hc
  obtain ⟨⟨d, e⟩, _⟩ := h
  have : s₀.errors ++ (d ++ [m]) = s₀.errors := by
    have h1 : (addError m s).errors = s₀.errors := hc.1
    rw [addError] at h1
    simp only at h1
    rw [e, List.append_assoc] at h1
    exact h1
  exact list_append_ne_self _ _ (by simp) this

theorem not_clean_peekError {s₀ : PState} (t : TokenType) (s : PState) (h : StepOk s₀ s) :
    ¬ Clean s₀ (peekError t s) :=
  not_clean_addError _ s h

theorem expectPeek_inv_true {t : TokenType} {s : PState} {s' : PState}
    (h : expectPeek t s = (true, s')) : s' = nextToken s ∧ s.peekToken.type = t := by
  unfold expectPeek at h
  split at h
  · exact ⟨(Prod.mk.injEq _ _ _ _ ▸ h).2.symm ▸ rfl, by assumption⟩
  · cases h

theorem expectPeek_inv_false {t : TokenType} {s : PState} {s' : PState}
    (h : expectPeek t s = (false, s')) : s' = peekError t s ∧ s.peekToken.type ≠ t := by
  unfold expectPeek at h
  split at h
  · cases h
  · exact ⟨(Prod.mk.injEq _ _ _ _ ▸ h).2.symm ▸ rfl, by assumption⟩

theorem stepOk_expectPeek (t : TokenType) (s : PState) : StepOk s (expectPeek t s).2 := by
  unfold expectPeek
  split
  · exact stepOk_nextToken s
  · exact stepOk_peekError t s

theorem wfReq_some {o : Option Expression} (h : wfReq o = true) :
    ∃ e, o = some e ∧ wfExpr e = true := by
  cases o with
  | none => simp [wfReq] at h
  | some e => exact ⟨e, rfl, h⟩

theorem wfReq_of_some {e : Expression} (h : wfExpr e = true) : wfReq (some e) = true := h

theorem wfOpt_of_some {e : Expression} (h : wfExpr e = true) : wfOpt (some e) = true := h

theorem wfStmts_append (l : List Statement) (st : Statement) :
    wfStmts (l ++ [st]) = (wfStmts l && wfStmt st) := by
  induction l with
  | nil => simp [wfStmts]
  | cons x xs ih => simp [wfStmts, ih, Bool.and_assoc]

theorem wfList_append (l : List (Option Expression)) (e : Option Expression) :
    wfList (l ++ [e]) = (wfList l && wfOpt e) := by
  induction l with
  | nil => simp [wfList]
  | cons x xs ih => simp [wfList, ih, Bool.and_assoc]

theorem wfPairs_append (l : List (Option Expression × Option Expression))
    (k v : Option Expression) :
    wfPairs (l ++ [(k, v)]) = (wfPairs l && (wfOpt k && wfOpt v)) := by
  induction l with
  | nil => simp [wfPairs]
  | cons x xs ih =>
    cases x with
    | mk xk xv => simp [wfPairs, ih, Bool.and_assoc]

theorem evalStatementsAux_append_last (l : List Statement) (st : Statement)
    (acc : Option Object) : evalStatementsAux acc (l ++ [st]) = evalStmt st := by
  induction l generalizing acc with
  | nil => rfl
  | cons x xs ih => exact ih (evalStmt x)

theorem evalExpr_shape (e : Expression) (o : Object) (h : evalExpr e = some o) :
    (∃ i, o = Object.integer i) ∨ o = TRUE ∨ o = FALSE := by
  cases e with
  | integerLiteral tok v =>
    simp [evalExpr] at h
    exact Or.inl ⟨v, h.symm⟩
  | booleanLit tok b =>
    cases b with
    | true =>
      simp [evalExpr, nativeBooltoBooleanObject] at h
      exact Or.inr (Or.inl h.symm)
    | false =>
      simp [evalExpr, nativeBooltoBooleanObject] at h
      exact Or.inr (Or.inr h.symm)
  | identifier tok v => simp [evalExpr] at h
  | stringLiteral tok v => simp [evalExpr] at h
  | prefixExpr tok op r => simp [evalExpr] at h
  | infixExpr tok op l r => simp [evalExpr] at h
  | ifExpr tok c cons alt => simp [evalExpr] at h
  | functionLiteral tok ps body => simp [evalExpr] at h
  | callExpr tok fn args => simp [evalExpr] at h
  | arrayLiteral tok elems => simp [evalExpr] at h
  | indexExpr tok l i => simp [evalExpr] at h
  | hashLiteral tok ps => simp [evalExpr] at h

theorem evalStmt_shape (st : Statement) (o : Object) (h : evalStmt st = some o) :
    (∃ i, o = Object.integer i) ∨ o = TRUE ∨ o = FALSE := by
  cases st with
  | exprStmt tok e =>
    cases e with
    | none => simp [evalStmt] at h
    | some e => exact evalExpr_shape e o h
  | letStmt tok name v => simp [evalStmt] at h
  | returnStmt tok v rv => simp [evalStmt] at h

theorem evalStatementsAux_shape (l : List Statement) (acc : Option Object)
    (hacc : ∀ o, acc = some o → (∃ i, o = Object.integer i) ∨ o = TRUE ∨ o = FALSE)
    (o : Object) (h : evalStatementsAux acc l = some o) :
    (∃ i, o = Object.integer i) ∨ o = TRUE ∨ o = FALSE := by
  induction l generalizing acc with
  | nil => exact hacc o h
  | cons x xs ih => exact ih (evalStmt x) (fun o' h' => evalStmt_shape x o' h') h

theorem eval_shape (n : Node) (o : Object) (h : Eval n = some o) :
    (∃ i, o = Object.integer i) ∨ o = TRUE ∨ o = FALSE := by
  cases n with
  | prog p =>
    exact evalStatementsAux_shape p.statements none (fun o' h' => by cases h') o h
  | stmt s => exact evalStmt_shape s o h
  | expr e => exact evalExpr_shape e o h

/- ------------------------------------------------------------------ -/
/- Claim C1                                                            -/
/- ------------------------------------------------------------------ -/

/-- Claim C1, counterexample: `Eval` applied to a let statement (an AST
node the type switch does not handle) returns the host language's `nil`
(`none` in the embedding), so "Eval never returns the host null
reference" is false as stated. -/
theorem eval_of_let_statement_is_host_nil :
    Eval (.stmt (.letStmt ⟨.LET, "let"⟩ ⟨⟨.IDENT, "x"⟩, "x"⟩
      (some (.integerLiteral ⟨.INT, "5"⟩ 5)))) = none := by decide

/-- Claim C1, amended: `Eval` returns a proper (non-host-nil) runtime
value for the node kinds its type switch handles — integer literals,
boolean literals, expression statements wrapping such an expression, and
programs whose final statement is such — and it never returns the `Null`
singleton; unhandled nodes and empty programs yield host `nil`. -/
theorem eval_handled_nodes_not_host_nil :
    (∀ (tok : Token) (n : Int), Eval (.expr (.integerLiteral tok n)) = some (.integer n))
    ∧ (∀ (tok : Token) (b : Bool),
        Eval (.expr (.booleanLit tok b)) = some (nativeBooltoBooleanObject b))
    ∧ (∀ (tok : Token) (e : Expression) (v : Object),
        evalExpr e = some v → Eval (.stmt (.exprStmt tok (some e))) = some v)
    ∧ (∀ (init : List Statement) (st : Statement) (v : Object),
        evalStmt st = some v → Eval (.prog ⟨init ++ [st]⟩) = some v)
    ∧ (∀ n : Node, (Eval n == some NULL) = false) := by
  refine ⟨fun tok n => rfl, fun tok b => rfl, fun tok e v h => h, ?_, ?_⟩
  · intro init st v h
    show evalStatements (init ++ [st]) = some v
    rw [evalStatements, evalStatementsAux_append_last]
    exact h
  · intro n
    rw [beq_eq_false_iff_ne]
    intro h
    rcases eval_shape n NULL h with ⟨i, hi⟩ | hi | hi <;> cases hi

theorem eval_handled_nodes_not_host_nil_witness :
    Eval (.prog ⟨[.exprStmt ⟨.INT, "7"⟩ (some (.integerLiteral ⟨.INT, "7"⟩ 7))]⟩)
      = some (.integer 7) :=
  eval_handled_nodes_not_host_nil.2.2.2.1 [] _ _ (by decide)

/- ------------------------------------------------------------------ -/
/- Claim C3                                                            -/
/- ------------------------------------------------------------------ -/

/-- Claim C3, counterexample: the program `return 5;` (one return
statement, as the parser builds it) does not evaluate to `Integer 5`;
`evalStatements` performs no `ReturnValue` unwrapping and the type
switch does not handle return statements at all, so the result is host
`nil`. -/
theorem eval_top_level_return_not_unwrapped :
    (Eval (.prog ⟨[.returnStmt ⟨.RETURN, "return"⟩ none
        (some (.integerLiteral ⟨.INT, "5"⟩ 5))]⟩) == some (.integer 5)) = false
    ∧ Eval (.prog ⟨[.returnStmt ⟨.RETURN, "return"⟩ none
        (some (.integerLiteral ⟨.INT, "5"⟩ 5))]⟩) = none := by decide

/-- Claim C3, amended: evaluating a `Program` evaluates every statement
in order and returns the last statement's result (host `nil` for an
empty program); there is no early return and no unwrapping — every value
this evaluator can produce is an `Integer` or one of the `TRUE`/`FALSE`
singletons, never a `ReturnValue` or an `Error`. -/
theorem evalStatements_returns_last_result :
    evalStatements [] = none
    ∧ (∀ (init : List Statement) (st : Statement),
        evalStatements (init ++ [st]) = evalStmt st)
    ∧ (∀ (n : Node) (o : Object), Eval n = some o →
        (∃ i, o = Object.integer i) ∨ o = TRUE ∨ o = FALSE) := by
  refine ⟨rfl, ?_, eval_shape⟩
  intro init st
  rw [evalStatements, evalStatementsAux_append_last]

theorem evalStatements_returns_last_result_witness :
    evalStatements [.exprStmt ⟨.TRUE, "true"⟩ (some (.booleanLit ⟨.TRUE, "true"⟩ true)),
      .exprStmt ⟨.INT, "3"⟩ (some (.integerLiteral ⟨.INT, "3"⟩ 3))]
      = some (.integer 3) := by
  have h := evalStatements_returns_last_result.2.1
    [.exprStmt ⟨.TRUE, "true"⟩ (some (.booleanLit ⟨.TRUE, "true"⟩ true))]
    (.exprStmt ⟨.INT, "3"⟩ (some (.integerLiteral ⟨.INT, "3"⟩ 3)))
  rw [show ([.exprStmt ⟨.TRUE, "true"⟩ (some (.booleanLit ⟨.TRUE, "true"⟩ true))] ++
      [Statement.exprStmt ⟨.INT, "3"⟩ (some (.integerLiteral ⟨.INT, "3"⟩ 3))]) =
      [Statement.exprStmt ⟨.TRUE, "true"⟩ (some (.booleanLit ⟨.TRUE, "true"⟩ true)),
       Statement.exprStmt ⟨.INT, "3"⟩ (some (.integerLiteral ⟨.INT, "3"⟩ 3))] from rfl] at h
  rw [h]
  rfl

/- ------------------------------------------------------------------ -/
/- Claim C10                                                           -/
/- ------------------------------------------------------------------ -/

/-- Claim C10: a `Program` with zero statements evaluates to the host
language's `nil` (`none`), not to any runtime value — in particular not
to the `NULL` singleton — and for such a result the REPL's printing step
emits nothing. -/
theorem empty_program_evaluates_to_host_nil :
    Eval (.prog ⟨[]⟩) = none
    ∧ (Eval (.prog ⟨[]⟩) == some NULL) = false
    ∧ replPrint (Eval (.prog ⟨[]⟩)) = "" := by decide

/- ------------------------------------------------------------------ -/
/- Claim C7                                                            -/
/- ------------------------------------------------------------------ -/

/-- Claim C7: `Get` returns the binding of the innermost frame that
contains the name — it scans the chain of stores innermost-first and
returns the first hit (`none`, i.e. `found = false`, when no frame binds
the name) — and `Set` rewrites only the current frame's store, leaving
every outer frame's store unchanged. -/
theorem enviroment_get_innermost_set_current_only :
    ∀ (env : Enviroment) (name : String) (value : Object),
      env.Get name = env.frames.findSome? (fun fr => storeGet fr name)
      ∧ env.frames = env.storeOf :: env.outerFrames
      ∧ (env.Set name value).frames = storeSet env.storeOf name value :: env.outerFrames := by
  intro env name value
  refine ⟨?_, ?_, ?_⟩
  · induction env with
    | root st =>
      show Enviroment.Get (.root st) name = _
      unfold Enviroment.Get Enviroment.frames
      cases h : storeGet st name <;> simp [List.findSome?, h]
    | enclosed st outer ih =>
      show Enviroment.Get (.enclosed st outer) name = _
      unfold Enviroment.Get Enviroment.frames
      cases h : storeGet st name <;> simp [List.findSome?, h, ih]
  · cases env <;> rfl
  · cases env <;> rfl

/- ------------------------------------------------------------------ -/
/- Claim C8                                                            -/
/- ------------------------------------------------------------------ -/

/-- Claim C8: the precedence constants ascend in the order `LOWEST <
EQUALS < LESSGREATER < SUM < PRODUCT < PREFIX < CALL < INDEX`; the
`precedences` table maps `==`/`!=` to `EQUALS`, `<`/`>` to
`LESSGREATER`, `+`/`-` to `SUM`, `*`/`/` to `PRODUCT`, `(` to `CALL`,
`[` to `INDEX`, and contains no other entry; `peekPrecedence` and
`curPrecedence` return `LOWEST` for every token kind without an entry. -/
theorem precedence_table_ascending_and_default_lowest :
    (LOWEST < EQUALS ∧ EQUALS < LESSGREATER ∧ LESSGREATER < SUM ∧ SUM < PRODUCT ∧
      PRODUCT < PREFIXOP ∧ PREFIXOP < CALL ∧ CALL < INDEX)
    ∧ (precedences .EQ = some EQUALS ∧ precedences .NOT_EQ = some EQUALS
       ∧ precedences .LT = some LESSGREATER ∧ precedences .GT = some LESSGREATER
       ∧ precedences .PLUS = some SUM ∧ precedences .MINUS = some SUM
       ∧ precedences .ASTERISK = some PRODUCT ∧ precedences .SLASH = some PRODUCT
       ∧ precedences .LPAREN = some CALL ∧ precedences .LBRACKET = some INDEX)
    ∧ (∀ t : TokenType, precedences t = none ∨ t = .EQ ∨ t = .NOT_EQ ∨ t = .LT ∨
        t = .GT ∨ t = .PLUS ∨ t = .MINUS ∨ t = .ASTERISK ∨ t = .SLASH ∨
        t = .LPAREN ∨ t = .LBRACKET)
    ∧ (∀ s : PState, precedences s.peekToken.type = none → peekPrecedence s = LOWEST)
    ∧ (∀ s : PState, precedences s.curToken.type = none → curPrecedence s = LOWEST) := by
  refine ⟨by decide, by decide, ?_, ?_, ?_⟩
  · intro t
    cases t <;> decide
  · intro s h
    rw [peekPrecedence, h]
    rfl
  · intro s h
    rw [curPrecedence, h]
    rfl

theorem precedence_table_ascending_and_default_lowest_witness :
    peekPrecedence (mkParser []) = LOWEST :=
  precedence_table_ascending_and_default_lowest.2.2.2.1 (mkParser []) (by decide)

/- ------------------------------------------------------------------ -/
/- Claim C9                                                            -/
/- ------------------------------------------------------------------ -/

/-- Claim C9: when the peek token has the expected kind, `expectPeek`
advances one token and reports success with no error recorded; otherwise
it leaves the token position unchanged, appends exactly the message
`expected next token to be <kind>, got <kind> instead` (expected kind,
then actual peek kind), and reports failure. -/
theorem expectPeek_advances_or_records_error :
    ∀ (t : TokenType) (s : PState),
      (s.peekToken.type = t →
        (expectPeek t s).1 = true ∧ (expectPeek t s).2 = nextToken s
        ∧ (expectPeek t s).2.errors = s.errors)
      ∧ (s.peekToken.type ≠ t →
        (expectPeek t s).1 = false
        ∧ (expectPeek t s).2.curToken = s.curToken
        ∧ (expectPeek t s).2.peekToken = s.peekToken
        ∧ (expectPeek t s).2.toks = s.toks
        ∧ (expectPeek t s).2.errors = s.errors ++
            ["expected next token to be " ++ ttStr t ++ ", got " ++
              ttStr s.peekToken.type ++ " instead"]) := by
  intro t s
  constructor
  · intro h
    rw [expectPeek, if_pos h]
    exact ⟨rfl, rfl, nextToken_errors s⟩
  · intro h
    rw [expectPeek, if_neg h]
    exact ⟨rfl, rfl, rfl, rfl, rfl⟩

theorem expectPeek_advances_or_records_error_witness :
    (expectPeek .IDENT (mkParser [])).1 = false
    ∧ (expectPeek .IDENT (mkParser [])).2.errors =
        ["expected next token to be IDENT, got EOF instead"] := by
  have h := (expectPeek_advances_or_records_error .IDENT (mkParser [])).2 (by decide)
  refine ⟨h.1, ?_⟩
  rw [h.2.2.2.2]
  decide

/- ------------------------------------------------------------------ -/
/- Claim C2                                                            -/
/- ------------------------------------------------------------------ -/

/-- Claim C2, divergence at the failing input: parsing
`if (true) \x7b 1 2 \x7d` yields an `if` whose consequence block holds
exactly one statement — the integer literal `1` — although the source
block was written with the two statements `1` and `2`; the embedded
`parseBlockStatement` checks the loop condition once (an `if`, not a
loop) and therefore keeps at most one statement. -/
theorem parseBlockStatement_keeps_only_first_statement :
    consequenceLength (ParseProgram 50 (mkParser ifTwoStmtToks)).1 = some 1
    ∧ consequenceSingleInt (ParseProgram 50 (mkParser ifTwoStmtToks)).1 = some 1
    ∧ (ParseProgram 50 (mkParser ifTwoStmtToks)).2.fuelOut = false := by decide

/- ------------------------------------------------------------------ -/
/- Claim C4                                                            -/
/- ------------------------------------------------------------------ -/

theorem noSemicolonAhead_nextToken {s : PState} (h : noSemicolonAhead s = true) :
    noSemicolonAhead (nextToken s) = true := by
  rcases s with ⟨toks, c, p, e, fo⟩
  simp [noSemicolonAhead, List.all_eq_true] at h
  cases toks with
  | nil =>
    simp [noSemicolonAhead, nextToken, eofToken]
    exact h.1.2
  | cons t rest =>
    simp [noSemicolonAhead, nextToken, List.all_eq_true]
    exact ⟨⟨h.1.2, h.2 t (by simp)⟩, fun x hx => h.2 x (by simp [hx])⟩

theorem curSkipToSemicolonV0_stuck :
    ∀ (fuel : Nat) (s : PState), noSemicolonAhead s = true →
      curSkipToSemicolonV0 fuel s = none := by
  intro fuel
  induction fuel with
  | zero => intro s _; rfl
  | succ f ih =>
    intro s h
    have hc : ¬ (s.curToken.type = TokenType.SEMICOLON) := by
      simp [noSemicolonAhead, List.all_eq_true] at h
      exact h.1.1
    rw [curSkipToSemicolonV0, if_neg hc]
    exact ih (nextToken s) (noSemicolonAhead_nextToken h)

/-- Claim C4, divergence at the failing input: on the input `let x = 5`
(no trailing semicolon; after it the lexer yields `EOF` forever), the
`parseLetStatement` of src/parser/parser.go never finishes — its
token-skipping loop `for !p.curTokenIs(token.SEMICOLON)` finds no
semicolon for any number of iterations, so `parse_program` does not
terminate on this finite input. -/
theorem parseLetStatementV0_diverges_without_semicolon :
    ∀ fuel : Nat, parseLetStatementV0 fuel (mkParser letNoSemiToks) = none := by
  intro fuel
  have hred : parseLetStatementV0 fuel (mkParser letNoSemiToks) =
      match curSkipToSemicolonV0 fuel
          ⟨[], ⟨.ASSIGN, "="⟩, ⟨.INT, "5"⟩, [], false⟩ with
      | none => none
      | some s3 =>
        some (some (.letStmt ⟨.LET, "let"⟩ ⟨⟨.IDENT, "x"⟩, "x"⟩ none), s3) := rfl
  rw [hred, curSkipToSemicolonV0_stuck fuel _ (by decide)]

/- ------------------------------------------------------------------ -/
/- Claim C5                                                            -/
/- ------------------------------------------------------------------ -/

/-- Claim C5, divergence at the failing input: parsing `return 5;`
succeeds with no errors, and the parser stores the expression `5` in the
`ReturnValue` field, but `ReturnStatement.String` prints the never-set
`Value` field, so the pretty-print is `return ;` and not `return 5;`. -/
theorem return_statement_string_drops_value :
    ((firstStmt (ParseProgram 50 (mkParser returnFiveToks)).1).map stmtString
        = some "return ;")
    ∧ ((firstStmt (ParseProgram 50 (mkParser returnFiveToks)).1).map rsValueIsNil
        = some true)
    ∧ ((firstStmt (ParseProgram 50 (mkParser returnFiveToks)).1).map rsReturnValueInt
        = some (some 5))
    ∧ (ParseProgram 50 (mkParser returnFiveToks)).2.errors = []
    ∧ (ParseProgram 50 (mkParser returnFiveToks)).2.fuelOut = false
    ∧ (("return ;" == "return 5;") = false) := by decide

/- ------------------------------------------------------------------ -/
/- Claim C6: groundwork                                                -/
/- ------------------------------------------------------------------ -/

theorem wfOpt_of_wfReq {o : Option Expression} (h : wfReq o = true) : wfOpt o = true := by
  cases o with
  | none => simp [wfReq] at h
  | some e => exact h

theorem parserOk_zero : ParserOk 0 := by
  refine ⟨?_, ?_, ?_, ?_, ?_, ?_, ?_, ?_, ?_, ?_, ?_, ?_, ?_, ?_, ?_, ?_, ?_, ?_, ?_,
    ?_, ?_, ?_, ?_⟩
  · exact fun prec s => ⟨stepOk_fuelExhausted s, fun h => absurd h (not_clean_fuelExhausted s)⟩
  · exact fun prec left s =>
      ⟨stepOk_fuelExhausted s, fun h => absurd h (not_clean_fuelExhausted s)⟩
  · exact fun s => ⟨stepOk_fuelExhausted s, fun h => absurd h (not_clean_fuelExhausted s)⟩
  · exact fun left s => ⟨stepOk_fuelExhausted s, fun h => absurd h (not_clean_fuelExhausted s)⟩
  · exact fun s => ⟨stepOk_fuelExhausted s, fun h => absurd h (not_clean_fuelExhausted s)⟩
  · exact fun s => ⟨stepOk_fuelExhausted s, fun h => absurd h (not_clean_fuelExhausted s)⟩
  · exact fun s => ⟨stepOk_fuelExhausted s, fun h => absurd h (not_clean_fuelExhausted s)⟩
  · exact fun s => ⟨stepOk_fuelExhausted s, fun h => absurd h (not_clean_fuelExhausted s)⟩
  · exact fun s => stepOk_fuelExhausted s
  · exact fun acc s => stepOk_fuelExhausted s
  · exact fun s => ⟨stepOk_fuelExhausted s, fun h => absurd h (not_clean_fuelExhausted s)⟩
  · exact fun s => ⟨stepOk_fuelExhausted s, fun h => absurd h (not_clean_fuelExhausted s)⟩
  · exact fun acc s => ⟨stepOk_fuelExhausted s, fun h => absurd h (not_clean_fuelExhausted s)⟩
  · exact fun endT s => ⟨stepOk_fuelExhausted s, fun h => absurd h (not_clean_fuelExhausted s)⟩
  · exact fun acc s => ⟨stepOk_fuelExhausted s, fun h => absurd h (not_clean_fuelExhausted s)⟩
  · exact fun left s => ⟨stepOk_fuelExhausted s, fun h => absurd h (not_clean_fuelExhausted s)⟩
  · exact fun left s => ⟨stepOk_fuelExhausted s, fun h => absurd h (not_clean_fuelExhausted s)⟩
  · exact fun s => ⟨stepOk_fuelExhausted s, fun h => absurd h (not_clean_fuelExhausted s)⟩
  · exact fun s => ⟨stepOk_fuelExhausted s, fun h => absurd h (not_clean_fuelExhausted s)⟩
  · exact fun s => stepOk_fuelExhausted s
  · exact fun s => ⟨stepOk_fuelExhausted s, fun h => absurd h (not_clean_fuelExhausted s)⟩
  · exact fun s => ⟨stepOk_fuelExhausted s, fun h => absurd h (not_clean_fuelExhausted s)⟩
  · exact fun acc s => ⟨stepOk_fuelExhausted s, fun h => absurd h (not_clean_fuelExhausted s)⟩

theorem parseIdentifier_ok (s : PState) :
    StepOk s (parseIdentifier s).2 ∧
    (Clean s (parseIdentifier s).2 →
      ∃ e, (parseIdentifier s).1 = some e ∧ wfExpr e = true) :=
  ⟨stepOk_refl s, fun _ => ⟨_, rfl, rfl⟩⟩

theorem parseStringLiteral_ok (s : PState) :
    StepOk s (parseStringLiteral s).2 ∧
    (Clean s (parseStringLiteral s).2 →
      ∃ e, (parseStringLiteral s).1 = some e ∧ wfExpr e = true) :=
  ⟨stepOk_refl s, fun _ => ⟨_, rfl, rfl⟩⟩

theorem parseBoolean_ok (s : PState) :
    StepOk s (parseBoolean s).2 ∧
    (Clean s (parseBoolean s).2 →
      ∃ e, (parseBoolean s).1 = some e ∧ wfExpr e = true) :=
  ⟨stepOk_refl s, fun _ => ⟨_, rfl, rfl⟩⟩

theorem parseIntegerLiteral_ok (s : PState) :
    StepOk s (parseIntegerLiteral s).2 ∧
    (Clean s (parseIntegerLiteral s).2 →
      ∃ e, (parseIntegerLiteral s).1 = some e ∧ wfExpr e = true) := by
  cases h : goParseInt s.curToken.literal with
  | some v =>
    simp only [parseIntegerLiteral, h]
    exact ⟨stepOk_refl s, fun _ => ⟨_, rfl, rfl⟩⟩
  | none =>
    simp only [parseIntegerLiteral, h]
    exact ⟨stepOk_addError _ s, fun hcl => absurd hcl (not_clean_addError _ s (stepOk_refl s))⟩

theorem handlerThenLoop {f : Nat} (hLoop : LoopP f) {s : PState}
    {q : Option Expression × PState} {prec : Nat}
    (hq : StepOk s q.2 ∧
      (Clean s q.2 → ∃ e, q.1 = some e ∧ wfExpr e = true)) :
    StepOk s (parseExpressionLoop f prec q.1 q.2).2 ∧
    (Clean s (parseExpressionLoop f prec q.1 q.2).2 →
      ∃ e, (parseExpressionLoop f prec q.1 q.2).1 = some e ∧ wfExpr e = true) := by
  obtain ⟨lso, lwf⟩ := hLoop prec q.1 q.2
  refine ⟨stepOk_trans hq.1 lso, ?_⟩
  intro hcl
  obtain ⟨h1, h2⟩ := clean_split hq.1 lso hcl
  obtain ⟨e, he, hw⟩ := hq.2 h1
  exact lwf h2 (by rw [he]; exact hw)

theorem binThenLoop {f : Nat} (hLoop : LoopP f) {s s₁ : PState}
    {left : Option Expression} {q : Option Expression × PState} {prec : Nat}
    (hso : StepOk s s₁)
    (hq : StepOk s₁ q.2 ∧
      (Clean s₁ q.2 → wfReq left = true → ∃ e, q.1 = some e ∧ wfExpr e = true)) :
    StepOk s (parseExpressionLoop f prec q.1 q.2).2 ∧
    (Clean s (parseExpressionLoop f prec q.1 q.2).2 → wfReq left = true →
      ∃ e, (parseExpressionLoop f prec q.1 q.2).1 = some e ∧ wfExpr e = true) := by
  obtain ⟨lso, lwf⟩ := hLoop prec q.1 q.2
  refine ⟨stepOk_trans hso (stepOk_trans hq.1 lso), ?_⟩
  intro hcl hleft
  obtain ⟨h1, h2⟩ := clean_split hso (stepOk_trans hq.1 lso) hcl
  obtain ⟨h3, h4⟩ := clean_split hq.1 lso h2
  obtain ⟨e, he, hw⟩ := hq.2 h3 hleft
  exact lwf h4 (by rw [he]; exact hw)

theorem exprP_succ {f : Nat} (ihLoop : LoopP f) (ihPre : PreExP f) (ihGroup : GroupP f)
    (ihIf : IfP f) (ihFnLit : FnLitP f) (ihArray : ArrayP f) (ihHash : HashP f) :
    ExprP (Nat.succ f) := by
  intro prec s
  simp only [parseExpression]
  split
  · exact handlerThenLoop ihLoop (parseIdentifier_ok s)
  · exact handlerThenLoop ihLoop (parseIntegerLiteral_ok s)
  · exact handlerThenLoop ihLoop (parseStringLiteral_ok s)
  · exact handlerThenLoop ihLoop (ihPre s)
  · exact handlerThenLoop ihLoop (ihPre s)
  · exact handlerThenLoop ihLoop (parseBoolean_ok s)
  · exact handlerThenLoop ihLoop (parseBoolean_ok s)
  · exact handlerThenLoop ihLoop (ihGroup s)
  · exact handlerThenLoop ihLoop (ihIf s)
  · exact handlerThenLoop ihLoop (ihFnLit s)
  · exact handlerThenLoop ihLoop (ihArray s)
  · exact handlerThenLoop ihLoop (ihHash s)
  · exact ⟨stepOk_addError _ s,
      fun hcl => absurd hcl (not_clean_addError _ s (stepOk_refl s))⟩

theorem loopP_succ {f : Nat} (ihLoop : LoopP f) (ihInf : InExP f) (ihCall : CallP f)
    (ihIndex : IndexP f) : LoopP (Nat.succ f) := by
  intro prec left s
  simp only [parseExpressionLoop]
  split
  · split
    · exact binThenLoop ihLoop (stepOk_nextToken s) (ihInf left (nextToken s))
    · exact binThenLoop ihLoop (stepOk_nextToken s) (ihInf left (nextToken s))
    · exact binThenLoop ihLoop (stepOk_nextToken s) (ihInf left (nextToken s))
    · exact binThenLoop ihLoop (stepOk_nextToken s) (ihInf left (nextToken s))
    · exact binThenLoop ihLoop (stepOk_nextToken s) (ihInf left (nextToken s))
    · exact binThenLoop ihLoop (stepOk_nextToken s) (ihInf left (nextToken s))
    · exact binThenLoop ihLoop (stepOk_nextToken s) (ihInf left (nextToken s))
    · exact binThenLoop ihLoop (stepOk_nextToken s) (ihInf left (nextToken s))
    · exact binThenLoop ihLoop (stepOk_nextToken s) (ihCall left (nextToken s))
    · exact binThenLoop ihLoop (stepOk_nextToken s) (ihIndex left (nextToken s))
    · exact ⟨stepOk_refl s, fun _ hl => wfReq_some hl⟩
  · exact ⟨stepOk_refl s, fun _ hl => wfReq_some hl⟩

theorem preExP_succ {f : Nat} (ihExpr : ExprP f) : PreExP (Nat.succ f) := by
  intro s
  simp only [parsePrefixExpression]
  obtain ⟨eso, ewf⟩ := ihExpr PREFIXOP (nextToken s)
  refine ⟨stepOk_trans (stepOk_nextToken s) eso, ?_⟩
  intro hcl
  obtain ⟨h1, h2⟩ := clean_split (stepOk_nextToken s) eso hcl
  obtain ⟨e, he, hw⟩ := ewf h2
  refine ⟨_, rfl, ?_⟩
  show wfReq (parseExpression f PREFIXOP (nextToken s)).1 = true
  rw [he]
  exact hw

theorem inExP_succ {f : Nat} (ihExpr : ExprP f) : InExP (Nat.succ f) := by
  intro left s
  simp only [parseInfixExpression]
  obtain ⟨eso, ewf⟩ := ihExpr (curPrecedence s) (nextToken s)
  refine ⟨stepOk_trans (stepOk_nextToken s) eso, ?_⟩
  intro hcl hleft
  obtain ⟨h1, h2⟩ := clean_split (stepOk_nextToken s) eso hcl
  obtain ⟨e, he, hw⟩ := ewf h2
  refine ⟨_, rfl, ?_⟩
  show (wfReq left && wfReq (parseExpression f (curPrecedence s) (nextToken s)).1) = true
  rw [he, hleft]
  simpa using hw

theorem groupP_succ {f : Nat} (ihExpr : ExprP f) : GroupP (Nat.succ f) := by
  intro s
  simp only [parseGroupedExpression]
  obtain ⟨eso, ewf⟩ := ihExpr LOWEST (nextToken s)
  have hso : StepOk s (parseExpression f LOWEST (nextToken s)).2 :=
    stepOk_trans (stepOk_nextToken s) eso
  split
  case _ s2 heq =>
    obtain ⟨hs2, _⟩ := expectPeek_inv_false heq
    subst hs2
    exact ⟨stepOk_trans hso (stepOk_peekError _ _),
      fun hcl => absurd hcl (not_clean_peekError _ _ hso)⟩
  case _ s2 heq =>
    obtain ⟨hs2, _⟩ := expectPeek_inv_true heq
    subst hs2
    refine ⟨stepOk_trans hso (stepOk_nextToken _), ?_⟩
    intro hcl
    obtain ⟨h1, h2⟩ := clean_split hso (stepOk_nextToken _) hcl
    obtain ⟨h3, h4⟩ := clean_split (stepOk_nextToken s) eso h1
    exact ewf h4

theorem ifP_succ {f : Nat} (ihExpr : ExprP f) (ihBlock : BlockP f) : IfP (Nat.succ f) := by
  intro s
  simp only [parseIfExpression]
  split
  case _ s1 heq =>
    obtain ⟨hs1, _⟩ := expectPeek_inv_false heq
    subst hs1
    exact ⟨stepOk_peekError _ _,
      fun hcl => absurd hcl (not_clean_peekError _ _ (stepOk_refl s))⟩
  case _ s1 heq =>
    obtain ⟨hs1, _⟩ := expectPeek_inv_true heq
    subst hs1
    obtain ⟨cso, cwf⟩ := ihExpr LOWEST (nextToken (nextToken s))
    have so01 : StepOk s (nextToken (nextToken s)) :=
      stepOk_trans (stepOk_nextToken s) (stepOk_nextToken _)
    have so02 : StepOk s (parseExpression f LOWEST (nextToken (nextToken s))).2 :=
      stepOk_trans so01 cso
    split
    case _ s3 heq2 =>
      obtain ⟨hs3, _⟩ := expectPeek_inv_false heq2
      subst hs3
      exact ⟨stepOk_trans so02 (stepOk_peekError _ _),
        fun hcl => absurd hcl (not_clean_peekError _ _ so02)⟩
    case _ s3 heq2 =>
      obtain ⟨hs3, _⟩ := expectPeek_inv_true heq2
      subst hs3
      split
      case _ s4 heq3 =>
        obtain ⟨hs4, _⟩ := expectPeek_inv_false heq3
        subst hs4
        have so03 : StepOk s
            (nextToken (parseExpression f LOWEST (nextToken (nextToken s))).2) :=
          stepOk_trans so02 (stepOk_nextToken _)
        exact ⟨stepOk_trans so03 (stepOk_peekError _ _),
          fun hcl => absurd hcl (not_clean_peekError _ _ so03)⟩
      case _ s4 heq3 =>
        obtain ⟨hs4, _⟩ := expectPeek_inv_true heq3
        subst hs4
        obtain ⟨bso, bwf⟩ := ihBlock
          (nextToken (nextToken (parseExpression f LOWEST (nextToken (nextToken s))).2))
        have so23 : StepOk (parseExpression f LOWEST (nextToken (nextToken s))).2
            (nextToken (nextToken (parseExpression f LOWEST (nextToken (nextToken s))).2)) :=
          stepOk_trans (stepOk_nextToken _) (stepOk_nextToken _)
        split
        · -- else clause present
          split
          case _ s6 heq4 =>
            obtain ⟨hs6, _⟩ := expectPeek_inv_false heq4
            subst hs6
            have so05 : StepOk s (nextToken (parseBlockStatement f
                (nextToken (nextToken (parseExpression f LOWEST
                  (nextToken (nextToken s))).2))).2) :=
              stepOk_trans so02 (stepOk_trans so23 (stepOk_trans bso (stepOk_nextToken _)))
            exact ⟨stepOk_trans so05 (stepOk_peekError _ _),
              fun hcl => absurd hcl (not_clean_peekError _ _ so05)⟩
          case _ s6 heq4 =>
            obtain ⟨hs6, _⟩ := expectPeek_inv_true heq4
            subst hs6
            obtain ⟨aso, awf⟩ := ihBlock (nextToken (nextToken (parseBlockStatement f
              (nextToken (nextToken (parseExpression f LOWEST
                (nextToken (nextToken s))).2))).2))
            have so45 : StepOk (parseBlockStatement f
                (nextToken (nextToken (parseExpression f LOWEST
                  (nextToken (nextToken s))).2))).2
                (nextToken (nextToken (parseBlockStatement f
                  (nextToken (nextToken (parseExpression f LOWEST
                    (nextToken (nextToken s))).2))).2)) :=
              stepOk_trans (stepOk_nextToken _) (stepOk_nextToken _)
            refine ⟨stepOk_trans so01 (stepOk_trans cso (stepOk_trans so23
              (stepOk_trans bso (stepOk_trans so45 aso)))), ?_⟩
            intro hcl
            obtain ⟨c01, c1e⟩ := clean_split so01 (stepOk_trans cso (stepOk_trans so23
              (stepOk_trans bso (stepOk_trans so45 aso)))) hcl
            obtain ⟨c12, c2e⟩ := clean_split cso (stepOk_trans so23
              (stepOk_trans bso (stepOk_trans so45 aso))) c1e
            obtain ⟨c23, c3e⟩ := clean_split so23
              (stepOk_trans bso (stepOk_trans so45 aso)) c2e
            obtain ⟨c34, c4e⟩ := clean_split bso (stepOk_trans so45 aso) c3e
            obtain ⟨c45, c5e⟩ := clean_split so45 aso c4e
            obtain ⟨e, he, hw⟩ := cwf c12
            have hb := bwf c34
            have ha := awf c5e
            refine ⟨_, rfl, ?_⟩
            show (wfOpt (parseExpression f LOWEST (nextToken (nextToken s))).1 &&
              wfBlock (parseBlockStatement f (nextToken (nextToken (parseExpression f
                LOWEST (nextToken (nextToken s))).2))).1 && wfOptBlock (some _)) = true
            rw [he]
            simp only [wfOpt_of_some hw, hb, Bool.and_self]
            show wfBlock _ = true
            exact ha
        · -- no else clause
          refine ⟨stepOk_trans so02 (stepOk_trans so23 bso), ?_⟩
          intro hcl
          obtain ⟨c02, c2e⟩ := clean_split so02 (stepOk_trans so23 bso) hcl
          obtain ⟨c23, c34⟩ := clean_split so23 bso c2e
          obtain ⟨c01, c12⟩ := clean_split so01 cso c02
          obtain ⟨e, he, hw⟩ := cwf c12
          have hb := bwf c34
          refine ⟨_, rfl, ?_⟩
          show (wfOpt (parseExpression f LOWEST (nextToken (nextToken s))).1 &&
            wfBlock (parseBlockStatement f (nextToken (nextToken (parseExpression f
              LOWEST (nextToken (nextToken s))).2))).1 && wfOptBlock none) = true
          rw [he]
          simp [wfOpt_of_some hw, hb, wfOptBlock]

theorem blockP_succ {f : Nat} (ihStmt : StmtP f) : BlockP (Nat.succ f) := by
  intro s
  simp only [parseBlockStatement]
  split
  · obtain ⟨sso, swf⟩ := ihStmt (nextToken s)
    have so02 : StepOk s (parseStatement f (nextToken s)).2 :=
      stepOk_trans (stepOk_nextToken s) sso
    refine ⟨stepOk_trans so02 (stepOk_nextToken _), ?_⟩
    intro hcl
    obtain ⟨c02, _⟩ := clean_split so02 (stepOk_nextToken _) hcl
    obtain ⟨c01, c12⟩ := clean_split (stepOk_nextToken s) sso c02
    obtain ⟨st, hst, hw⟩ := swf c12
    rw [hst]
    show wfStmts [st] = true
    simp [wfStmts, hw]
  · exact ⟨stepOk_nextToken s, fun _ => rfl⟩

theorem fnLitP_succ {f : Nat} (ihFnPar : FnParamsP f) (ihBlock : BlockP f) :
    FnLitP (Nat.succ f) := by
  intro s
  simp only [parseFunctionLiteral]
  split
  case _ s1 heq =>
    obtain ⟨hs1, _⟩ := expectPeek_inv_false heq
    subst hs1
    exact ⟨stepOk_peekError _ _,
      fun hcl => absurd hcl (not_clean_peekError _ _ (stepOk_refl s))⟩
  case _ s1 heq =>
    obtain ⟨hs1, _⟩ := expectPeek_inv_true heq
    subst hs1
    have pso := ihFnPar (nextToken s)
    have so02 : StepOk s (parseFunctionParameters f (nextToken s)).2 :=
      stepOk_trans (stepOk_nextToken s) pso
    split
    case _ s2 heq2 =>
      obtain ⟨hs2, _⟩ := expectPeek_inv_false heq2
      subst hs2
      exact ⟨stepOk_trans so02 (stepOk_peekError _ _),
        fun hcl => absurd hcl (not_clean_peekError _ _ so02)⟩
    case _ s2 heq2 =>
      obtain ⟨hs2, _⟩ := expectPeek_inv_true heq2
      subst hs2
      obtain ⟨bso, bwf⟩ := ihBlock (nextToken (parseFunctionParameters f (nextToken s)).2)
      have so03 : StepOk s (nextToken (parseFunctionParameters f (nextToken s)).2) :=
        stepOk_trans so02 (stepOk_nextToken _)
      refine ⟨stepOk_trans so03 bso, ?_⟩
      intro hcl
      obtain ⟨c03, c34⟩ := clean_split so03 bso hcl
      have hb := bwf c34
      exact ⟨_, rfl, hb⟩

theorem fnParamsLoopP_succ {f : Nat} (ihFnParLoop : FnParamsLoopP f) :
    FnParamsLoopP (Nat.succ f) := by
  intro acc s
  simp only [parseFunctionParametersLoop]
  split
  · exact stepOk_trans (stepOk_trans (stepOk_nextToken s) (stepOk_nextToken _))
      (ihFnParLoop _ _)
  · exact stepOk_refl s

theorem fnParamsP_succ {f : Nat} (ihFnParLoop : FnParamsLoopP f) :
    FnParamsP (Nat.succ f) := by
  intro s
  simp only [parseFunctionParameters]
  split
  · exact stepOk_nextToken s
  · have lso := ihFnParLoop [⟨(nextToken s).curToken, (nextToken s).curToken.literal⟩]
      (nextToken s)
    have so02 : StepOk s (parseFunctionParametersLoop f
        [⟨(nextToken s).curToken, (nextToken s).curToken.literal⟩] (nextToken s)).2 :=
      stepOk_trans (stepOk_nextToken s) lso
    split
    case _ s2 heq =>
      obtain ⟨hs2, _⟩ := expectPeek_inv_false heq
      subst hs2
      exact stepOk_trans so02 (stepOk_peekError _ _)
    case _ s2 heq =>
      obtain ⟨hs2, _⟩ := expectPeek_inv_true heq
      subst hs2
      exact stepOk_trans so02 (stepOk_nextToken _)

theorem eListLoopP_succ {f : Nat} (ihExpr : ExprP f) (ihEListLoop : EListLoopP f) :
    EListLoopP (Nat.succ f) := by
  intro acc s
  simp only [parseExpressionListLoop]
  split
  · obtain ⟨eso, ewf⟩ := ihExpr LOWEST (nextToken (nextToken s))
    obtain ⟨lso, lwf⟩ := ihEListLoop (acc ++ [(parseExpression f LOWEST
      (nextToken (nextToken s))).1]) (parseExpression f LOWEST (nextToken (nextToken s))).2
    have so01 : StepOk s (nextToken (nextToken s)) :=
      stepOk_trans (stepOk_nextToken s) (stepOk_nextToken _)
    have so02 : StepOk s (parseExpression f LOWEST (nextToken (nextToken s))).2 :=
      stepOk_trans so01 eso
    refine ⟨stepOk_trans so02 lso, ?_⟩
    intro hcl hacc
    obtain ⟨c02, c2e⟩ := clean_split so02 lso hcl
    obtain ⟨c01, c12⟩ := clean_split so01 eso c02
    obtain ⟨e, he, hw⟩ := ewf c12
    refine lwf c2e ?_
    rw [wfList_append, hacc, he]
    simpa using hw
  · exact ⟨stepOk_refl s, fun _ h => h⟩

theorem eListP_succ {f : Nat} (ihExpr : ExprP f) (ihEListLoop : EListLoopP f) :
    EListP (Nat.succ f) := by
  intro endT s
  simp only [parseExpressionList]
  split
  · exact ⟨stepOk_nextToken s, fun _ => ⟨[], rfl, rfl⟩⟩
  · obtain ⟨eso, ewf⟩ := ihExpr LOWEST (nextToken s)
    obtain ⟨lso, lwf⟩ := ihEListLoop [(parseExpression f LOWEST (nextToken s)).1]
      (parseExpression f LOWEST (nextToken s)).2
    have so02 : StepOk s (parseExpression f LOWEST (nextToken s)).2 :=
      stepOk_trans (stepOk_nextToken s) eso
    have so03 : StepOk s (parseExpressionListLoop f
        [(parseExpression f LOWEST (nextToken s)).1]
        (parseExpression f LOWEST (nextToken s)).2).2 :=
      stepOk_trans so02 lso
    split
    case _ s2 heq =>
      obtain ⟨hs2, _⟩ := expectPeek_inv_false heq
      subst hs2
      exact ⟨stepOk_trans so03 (stepOk_peekError _ _),
        fun hcl => absurd hcl (not_clean_peekError _ _ so03)⟩
    case _ s2 heq =>
      obtain ⟨hs2, _⟩ := expectPeek_inv_true heq
      subst hs2
      refine ⟨stepOk_trans so03 (stepOk_nextToken _), ?_⟩
      intro hcl
      obtain ⟨c03, _⟩ := clean_split so03 (stepOk_nextToken _) hcl
      obtain ⟨c02, c23⟩ := clean_split so02 lso c03
      obtain ⟨c01, c12⟩ := clean_split (stepOk_nextToken s) eso c02
      obtain ⟨e, he, hw⟩ := ewf c12
      refine ⟨_, rfl, ?_⟩
      refine lwf c23 ?_
      rw [he]
      show (wfOpt (some e) && wfList []) = true
      simp [wfOpt_of_some hw, wfList]

theorem hashLoopP_succ {f : Nat} (ihExpr : ExprP f) (ihHashLoop : HashLoopP f) :
    HashLoopP (Nat.succ f) := by
  intro acc s
  simp only [parseHashPairsLoop]
  split
  · obtain ⟨kso, kwf⟩ := ihExpr LOWEST (nextToken s)
    have so02 : StepOk s (parseExpression f LOWEST (nextToken s)).2 :=
      stepOk_trans (stepOk_nextToken s) kso
    split
    case _ s2 heq =>
      obtain ⟨hs2, _⟩ := expectPeek_inv_false heq
      subst hs2
      exact ⟨stepOk_trans so02 (stepOk_peekError _ _),
        fun hcl => absurd hcl (not_clean_peekError _ _ so02)⟩
    case _ s2 heq =>
      obtain ⟨hs2, _⟩ := expectPeek_inv_true heq
      subst hs2
      obtain ⟨vso, vwf⟩ := ihExpr LOWEST
        (nextToken (nextToken (parseExpression f LOWEST (nextToken s)).2))
      have so34 : StepOk (parseExpression f LOWEST (nextToken s)).2
          (parseExpression f LOWEST
            (nextToken (nextToken (parseExpression f LOWEST (nextToken s)).2))).2 :=
        stepOk_trans (stepOk_trans (stepOk_nextToken _) (stepOk_nextToken _)) vso
      have so04 : StepOk s (parseExpression f LOWEST
          (nextToken (nextToken (parseExpression f LOWEST (nextToken s)).2))).2 :=
        stepOk_trans so02 so34
      split
      · -- peek is not RBRACE after the value: expectPeek COMMA
        split
        case _ s4 heq2 =>
          obtain ⟨hs4, _⟩ := expectPeek_inv_false heq2
          subst hs4
          exact ⟨stepOk_trans so04 (stepOk_peekError _ _),
            fun hcl => absurd hcl (not_clean_peekError _ _ so04)⟩
        case _ s4 heq2 =>
          obtain ⟨hs4, _⟩ := expectPeek_inv_true heq2
          subst hs4
          obtain ⟨lso, lwf⟩ := ihHashLoop (acc ++ [((parseExpression f LOWEST
            (nextToken s)).1, (parseExpression f LOWEST (nextToken (nextToken
            (parseExpression f LOWEST (nextToken s)).2))).1)])
            (nextToken (parseExpression f LOWEST (nextToken (nextToken
              (parseExpression f LOWEST (nextToken s)).2))).2)
          have so05 : StepOk s (nextToken (parseExpression f LOWEST (nextToken (nextToken
              (parseExpression f LOWEST (nextToken s)).2))).2) :=
            stepOk_trans so04 (stepOk_nextToken _)
          refine ⟨stepOk_trans so05 lso, ?_⟩
          intro hcl hacc
          obtain ⟨c05, c5e⟩ := clean_split so05 lso hcl
          obtain ⟨c04, c45⟩ := clean_split so04 (stepOk_nextToken _) c05
          obtain ⟨c02, c24⟩ := clean_split so02 so34 c04
          obtain ⟨c01, c12⟩ := clean_split (stepOk_nextToken s) kso c02
          obtain ⟨c23, c34v⟩ := clean_split
            (stepOk_trans (stepOk_nextToken _) (stepOk_nextToken _)) vso c24
          obtain ⟨ek, hek, hwk⟩ := kwf c12
          obtain ⟨ev, hev, hwv⟩ := vwf c34v
          refine lwf c5e ?_
          rw [wfPairs_append, hacc, hek, hev]
          simp [wfOpt_of_some hwk, wfOpt_of_some hwv]
      · -- peek is RBRACE after the value: loop directly
        obtain ⟨lso, lwf⟩ := ihHashLoop (acc ++ [((parseExpression f LOWEST
          (nextToken s)).1, (parseExpression f LOWEST (nextToken (nextToken
          (parseExpression f LOWEST (nextToken s)).2))).1)])
          (parseExpression f LOWEST (nextToken (nextToken
            (parseExpression f LOWEST (nextToken s)).2))).2
        refine ⟨stepOk_trans so04 lso, ?_⟩
        intro hcl hacc
        obtain ⟨c04, c4e⟩ := clean_split so04 lso hcl
        obtain ⟨c02, c24⟩ := clean_split so02 so34 c04
        obtain ⟨c01, c12⟩ := clean_split (stepOk_nextToken s) kso c02
        obtain ⟨c23, c34v⟩ := clean_split
          (stepOk_trans (stepOk_nextToken _) (stepOk_nextToken _)) vso c24
        obtain ⟨ek, hek, hwk⟩ := kwf c12
        obtain ⟨ev, hev, hwv⟩ := vwf c34v
        refine lwf c4e ?_
        rw [wfPairs_append, hacc, hek, hev]
        simp [wfOpt_of_some hwk, wfOpt_of_some hwv]
  · exact ⟨stepOk_refl s, fun _ hacc => ⟨acc, rfl, hacc⟩⟩

theorem hashP_succ {f : Nat} (ihHashLoop : HashLoopP f) : HashP (Nat.succ f) := by
  intro s
  simp only [parseHashLiteral]
  obtain ⟨lso, lwf⟩ := ihHashLoop [] s
  split
  case _ heq =>
    refine ⟨lso, ?_⟩
    intro hcl
    obtain ⟨ps, hps, _⟩ := lwf hcl rfl
    rw [heq] at hps
    cases hps
  case _ ps heq =>
    split
    case _ s1 heq2 =>
      obtain ⟨hs1, _⟩ := expectPeek_inv_false heq2
      subst hs1
      exact ⟨stepOk_trans lso (stepOk_peekError _ _),
        fun hcl => absurd hcl (not_clean_peekError _ _ lso)⟩
    case _ s1 heq2 =>
      obtain ⟨hs1, _⟩ := expectPeek_inv_true heq2
      subst hs1
      refine ⟨stepOk_trans lso (stepOk_nextToken _), ?_⟩
      intro hcl
      obtain ⟨c0l, _⟩ := clean_split lso (stepOk_nextToken _) hcl
      obtain ⟨ps', hps', hwps'⟩ := lwf c0l rfl
      rw [heq] at hps'
      cases hps'
      exact ⟨_, rfl, hwps'⟩

theorem arrayP_succ {f : Nat} (ihEList : EListP f) : ArrayP (Nat.succ f) := by
  intro s
  simp only [parseArrayLiteral]
  obtain ⟨lso, lwf⟩ := ihEList .RBRACKET s
  refine ⟨lso, ?_⟩
  intro hcl
  obtain ⟨l, hl, hwl⟩ := lwf hcl
  refine ⟨_, rfl, ?_⟩
  show wfOptList (parseExpressionList f .RBRACKET s).1 = true
  rw [hl]
  exact hwl

theorem callP_succ {f : Nat} (ihEList : EListP f) : CallP (Nat.succ f) := by
  intro left s
  simp only [parseCallExpression]
  obtain ⟨lso, lwf⟩ := ihEList .RPAREN s
  refine ⟨lso, ?_⟩
  intro hcl hleft
  obtain ⟨l, hl, hwl⟩ := lwf hcl
  refine ⟨_, rfl, ?_⟩
  show (wfOpt left && wfOptList (parseExpressionList f .RPAREN s).1) = true
  rw [hl, wfOpt_of_wfReq hleft]
  simpa using hwl

theorem indexP_succ {f : Nat} (ihExpr : ExprP f) : IndexP (Nat.succ f) := by
  intro left s
  simp only [parseIndexExpression]
  obtain ⟨eso, ewf⟩ := ihExpr LOWEST (nextToken s)
  have so02 : StepOk s (parseExpression f LOWEST (nextToken s)).2 :=
    stepOk_trans (stepOk_nextToken s) eso
  split
  case _ s2 heq =>
    obtain ⟨hs2, _⟩ := expectPeek_inv_false heq
    subst hs2
    exact ⟨stepOk_trans so02 (stepOk_peekError _ _),
      fun hcl => absurd hcl (not_clean_peekError _ _ so02)⟩
  case _ s2 heq =>
    obtain ⟨hs2, _⟩ := expectPeek_inv_true heq
    subst hs2
    refine ⟨stepOk_trans so02 (stepOk_nextToken _), ?_⟩
    intro hcl hleft
    obtain ⟨c02, _⟩ := clean_split so02 (stepOk_nextToken _) hcl
    obtain ⟨c01, c12⟩ := clean_split (stepOk_nextToken s) eso c02
    obtain ⟨e, he, hw⟩ := ewf c12
    refine ⟨_, rfl, ?_⟩
    show (wfOpt left && wfOpt (parseExpression f LOWEST (nextToken s)).1) = true
    rw [he, wfOpt_of_wfReq hleft]
    simpa using wfOpt_of_some hw

theorem skipSemiP_succ {f : Nat} (ihSkip : SkipSemiP f) : SkipSemiP (Nat.succ f) := by
  intro s
  simp only [skipPeekSemicolons]
  split
  · exact stepOk_trans (stepOk_nextToken s) (ihSkip _)
  · exact stepOk_refl s

theorem stepOk_iteNext (c : Prop) [Decidable c] (s : PState) :
    StepOk s (if c then nextToken s else s) := by
  split
  · exact stepOk_nextToken s
  · exact stepOk_refl s

theorem letP_succ {f : Nat} (ihExpr : ExprP f) (ihSkip : SkipSemiP f) :
    LetP (Nat.succ f) := by
  intro s
  simp only [parseLetStatement]
  split
  case _ s1 heq =>
    obtain ⟨hs1, _⟩ := expectPeek_inv_false heq
    subst hs1
    exact ⟨stepOk_peekError _ _,
      fun hcl => absurd hcl (not_clean_peekError _ _ (stepOk_refl s))⟩
  case _ s1 heq =>
    obtain ⟨hs1, _⟩ := expectPeek_inv_true heq
    subst hs1
    split
    case _ s2 heq2 =>
      obtain ⟨hs2, _⟩ := expectPeek_inv_false heq2
      subst hs2
      exact ⟨stepOk_trans (stepOk_nextToken s) (stepOk_peekError _ _),
        fun hcl => absurd hcl (not_clean_peekError _ _ (stepOk_nextToken s))⟩
    case _ s2 heq2 =>
      obtain ⟨hs2, _⟩ := expectPeek_inv_true heq2
      subst hs2
      obtain ⟨eso, ewf⟩ := ihExpr LOWEST (nextToken (nextToken (nextToken s)))
      have so03 : StepOk s (nextToken (nextToken (nextToken s))) :=
        stepOk_trans (stepOk_nextToken s)
          (stepOk_trans (stepOk_nextToken _) (stepOk_nextToken _))
      have so04 : StepOk s
          (parseExpression f LOWEST (nextToken (nextToken (nextToken s)))).2 :=
        stepOk_trans so03 eso
      refine ⟨stepOk_trans so04 (ihSkip _), ?_⟩
      intro hcl
      obtain ⟨c04, _⟩ := clean_split so04 (ihSkip _) hcl
      obtain ⟨c03, c34⟩ := clean_split so03 eso c04
      obtain ⟨e, he, hw⟩ := ewf c34
      refine ⟨_, rfl, ?_⟩
      show wfOpt (parseExpression f LOWEST (nextToken (nextToken (nextToken s)))).1 = true
      rw [he]
      exact wfOpt_of_some hw

theorem retP_succ {f : Nat} (ihExpr : ExprP f) : RetP (Nat.succ f) := by
  intro s
  simp only [parseReturnStatement]
  obtain ⟨eso, ewf⟩ := ihExpr LOWEST (nextToken s)
  have so02 : StepOk s (parseExpression f LOWEST (nextToken s)).2 :=
    stepOk_trans (stepOk_nextToken s) eso
  refine ⟨stepOk_trans so02 (stepOk_iteNext _ _), ?_⟩
  intro hcl
  obtain ⟨c02, _⟩ := clean_split so02 (stepOk_iteNext _ _) hcl
  obtain ⟨c01, c12⟩ := clean_split (stepOk_nextToken s) eso c02
  obtain ⟨e, he, hw⟩ := ewf c12
  refine ⟨_, rfl, ?_⟩
  show (wfOpt none && wfOpt (parseExpression f LOWEST (nextToken s)).1) = true
  rw [he]
  simp [wfOpt, wfOpt_of_some hw]
  exact hw

theorem exprStmtP_succ {f : Nat} (ihExpr : ExprP f) : ExprStmtP (Nat.succ f) := by
  intro s
  simp only [parseExpressionStatement]
  obtain ⟨eso, ewf⟩ := ihExpr LOWEST s
  refine ⟨stepOk_trans eso (stepOk_iteNext _ _), ?_⟩
  intro hcl
  obtain ⟨c01, _⟩ := clean_split eso (stepOk_iteNext _ _) hcl
  obtain ⟨e, he, hw⟩ := ewf c01
  refine ⟨_, rfl, ?_⟩
  show wfOpt (parseExpression f LOWEST s).1 = true
  rw [he]
  exact wfOpt_of_some hw

theorem stmtP_succ {f : Nat} (ihLet : LetP f) (ihRet : RetP f) (ihExprStmt : ExprStmtP f) :
    StmtP (Nat.succ f) := by
  intro s
  simp only [parseStatement]
  split
  · exact ihLet s
  · exact ihRet s
  · exact ihExprStmt s

theorem progLoopP_succ {f : Nat} (ihStmt : StmtP f) (ihProgLoop : ProgLoopP f) :
    ProgLoopP (Nat.succ f) := by
  intro acc s
  simp only [parseProgramLoop]
  split
  · obtain ⟨sso, swf⟩ := ihStmt s
    split
    case _ st hst =>
      obtain ⟨lso, lwf⟩ := ihProgLoop (acc ++ [st]) (nextToken (parseStatement f s).2)
      have so02 : StepOk s (nextToken (parseStatement f s).2) :=
        stepOk_trans sso (stepOk_nextToken _)
      refine ⟨stepOk_trans so02 lso, ?_⟩
      intro hcl hacc
      obtain ⟨c02, c2e⟩ := clean_split so02 lso hcl
      obtain ⟨c01, c12⟩ := clean_split sso (stepOk_nextToken _) c02
      obtain ⟨st', hst', hw⟩ := swf c01
      rw [hst] at hst'
      cases hst'
      refine lwf c2e ?_
      rw [wfStmts_append, hacc]
      simpa using hw
    case _ hst =>
      obtain ⟨lso, lwf⟩ := ihProgLoop acc (nextToken (parseStatement f s).2)
      have so02 : StepOk s (nextToken (parseStatement f s).2) :=
        stepOk_trans sso (stepOk_nextToken _)
      refine ⟨stepOk_trans so02 lso, ?_⟩
      intro hcl hacc
      obtain ⟨c02, c2e⟩ := clean_split so02 lso hcl
      obtain ⟨c01, c12⟩ := clean_split sso (stepOk_nextToken _) c02
      obtain ⟨st', hst', hw⟩ := swf c01
      rw [hst] at hst'
      cases hst'
  · exact ⟨stepOk_refl s, fun _ h => h⟩

theorem parserOk_succ {f : Nat} (ih : ParserOk f) : ParserOk (Nat.succ f) := by
  obtain ⟨ihExpr, ihLoop, ihPre, ihInf, ihGroup, ihIf, ihBlock, ihFnLit, ihFnPar,
    ihFnParLoop, ihArray, ihHash, ihHashLoop, ihEList, ihEListLoop, ihCall, ihIndex,
    ihStmt, ihLet, ihSkip, ihRet, ihExprStmt, ihProgLoop⟩ := ih
  exact ⟨exprP_succ ihLoop ihPre ihGroup ihIf ihFnLit ihArray ihHash,
    loopP_succ ihLoop ihInf ihCall ihIndex,
    preExP_succ ihExpr,
    inExP_succ ihExpr,
    groupP_succ ihExpr,
    ifP_succ ihExpr ihBlock,
    blockP_succ ihStmt,
    fnLitP_succ ihFnPar ihBlock,
    fnParamsP_succ ihFnParLoop,
    fnParamsLoopP_succ ihFnParLoop,
    arrayP_succ ihEList,
    hashP_succ ihHashLoop,
    hashLoopP_succ ihExpr ihHashLoop,
    eListP_succ ihExpr ihEListLoop,
    eListLoopP_succ ihExpr ihEListLoop,
    callP_succ ihEList,
    indexP_succ ihExpr,
    stmtP_succ ihLet ihRet ihExprStmt,
    letP_succ ihExpr ihSkip,
    skipSemiP_succ ihSkip,
    retP_succ ihExpr,
    exprStmtP_succ ihExpr,
    progLoopP_succ ihStmt ihProgLoop⟩

theorem parserOk : ∀ f : Nat, ParserOk f := by
  intro f
  induction f with
  | zero => exact parserOk_zero
  | succ f ih => exact parserOk_succ ih

/- ------------------------------------------------------------------ -/
/- Claim C6                                                            -/
/- ------------------------------------------------------------------ -/

/-- Claim C6, counterexample: parsing the input `!` returns an AST whose
first statement holds a `PrefixExpression` with `Right = nil` (the
operand failed to parse; an error message was recorded, but the node
with the `nil` child is still part of the returned program), so the
invariant is false as stated for arbitrary parser output. -/
theorem parser_output_can_hold_nil_operand :
    firstPrefixRightIsNil (ParseProgram 20 (mkParser bangToks)).1 = true
    ∧ wfProgram (ParseProgram 20 (mkParser bangToks)).1 = false
    ∧ (ParseProgram 20 (mkParser bangToks)).2.fuelOut = false := by decide

/-- Claim C6, amended: in every AST the parser returns without recording
any error message, every `PrefixExpression` node has a non-null `Right`
and every `InfixExpression` node has non-null `Left` and `Right`
(`wfProgram`); the `fuelOut = false` hypothesis only discards runs in
which the embedding's fuel — an artifact absent from the Go code — ran
out. -/
theorem parser_no_errors_implies_nonnull_operands :
    ∀ (fuel : Nat) (s : PState),
      (ParseProgram fuel s).2.errors = s.errors →
      (ParseProgram fuel s).2.fuelOut = false →
      wfProgram (ParseProgram fuel s).1 = true := by
  intro fuel s h1 h2
  have hp := (parserOk fuel).2.2.2.2.2.2.2.2.2.2.2.2.2.2.2.2.2.2.2.2.2.2 [] s
  exact hp.2 ⟨h1, h2⟩ rfl

theorem parser_no_errors_implies_nonnull_operands_witness :
    wfProgram (ParseProgram 30 (mkParser bangAddToks)).1 = true :=
  parser_no_errors_implies_nonnull_operands 30 (mkParser bangAddToks)
    (by decide) (by decide)
